import Mathlib

/-!
# quick-lint-js: bump-backed vector, source locator, byte buffer, instrumentation

A shallow embedding of `raw_bump_vector` and `instrumented_vector`
(`src/quick-lint-js/vector.h`), of `locator` (`src/location.cpp`) and of
`byte_buffer` with `byte_buffer_iovec` (`src/quick-lint-js/byte-buffer.h`), with
the properties of the specification stated and proved over it.

Conventions of the embedding:

* a `T *` is a `Pointer`: null, or an element index inside one allocation;
* the arena allocator is not part of the sources; it is modelled from its
  contract, and the answer it gives to each in-place-growth request is a
  parameter (`grow_policy`) that every theorem quantifies over;
* `std::size_t` element counts are natural numbers: a count of elements of one
  allocation is bounded by `PTRDIFF_MAX`, so `capacity + 1` and `capacity * 2`
  stay below `2 ^ 64` and the arithmetic of the sources never wraps;
* an `int` is a 32-bit integer: the line and column numbers of the locator are
  integers kept in `[-2147483648, 2147483647]` by `wrap_int`, which every `int`
  operation and `narrow_cast<int>` apply;
* `byte-buffer.h` declares the byte buffer and defines only its template
  methods; the methods defined in `byte-buffer.cpp`, which is not part of the
  sources, are modelled from the specification over a memory of chunks;
* a failed `QLJS_ASSERT` is fatal where a claim is about the failure
  (`Except.error`, `none`); elsewhere the asserted condition is a hypothesis.
-/

set_option autoImplicit false

namespace quick_lint_js

/-! ## Pointers -/

/-- A value of type `T *`: the null pointer, or element number `off` of the
allocation `block`. -/
inductive Pointer where
  | null : Pointer
  | addr (block off : Nat) : Pointer
  deriving DecidableEq, Repr

namespace Pointer

/-- Pointer arithmetic `p + n`. -/
def add : Pointer → Nat → Pointer
  | null, _ => null
  | addr b o, n => addr b (o + n)

/-- Pointer difference `p - q` (a `std::ptrdiff_t`); `nullptr - nullptr` is
zero, and so is, by convention, the difference of unrelated pointers. -/
def diff : Pointer → Pointer → Int
  | addr b o, addr b2 o2 => if b = b2 then (o : Int) - (o2 : Int) else 0
  | _, _ => 0

/-- The order `p <= q` on pointers into one array (or both null). -/
def le : Pointer → Pointer → Prop
  | null, null => True
  | addr b o, addr b2 o2 => b = b2 ∧ o ≤ o2
  | _, _ => False

instance decLe (p q : Pointer) : Decidable (Pointer.le p q) := by
  cases p <;> cases q <;> unfold Pointer.le <;> infer_instance

end Pointer

/-- The cast `narrow_cast<std::size_t>` of a pointer difference. The cast
(declared in `narrow-cast.h`) keeps the value and asserts that it is
representable; the differences taken under the pointer invariant are never
negative, and a negative one is sent to 0 here. -/
def narrow_cast_size_t (d : Int) : Nat := d.toNat

/-- The value of a 32-bit `int` that holds the integer `x`: the two's-complement
wrap-around into `[-2147483648, 2147483647]`. -/
def wrap_int (x : Int) : Int := (x + 2147483648) % 4294967296 - 2147483648

/-- The cast `narrow_cast<int>`: its result is a 32-bit `int`, the value itself
when it fits (which the cast asserts) and its wrap-around otherwise. -/
def narrow_cast_int (d : Int) : Int := wrap_int d

/-- The values `sizeof(T)` and `alignof(T)` of the element type. -/
class element_layout (T : Type) where
  sizeof : Nat
  alignof : Nat

/-- A four-byte `int` element. -/
instance int_layout : element_layout Int := ⟨4, 4⟩

/-! ## The arena allocator (external collaborator) -/

/-- One call received by the allocator, with its arguments and its answer. -/
inductive allocator_call where
  | allocate_uninitialized_array (n : Nat) (result : Pointer)
  | try_grow_array_in_place (array : Pointer) (old_size new_size : Nat) (grew : Bool)
  | deallocate (p : Pointer) (size_bytes alignment : Nat)
  deriving DecidableEq, Repr

/-- Modelled from the spec: the arena allocator behind `BumpAllocator *allocator_`
(the template parameter of `raw_bump_vector`, absent from the sources). The state
is the element count of every allocation made so far, the contents of the arena
memory (`none` is an uninitialized or released cell) and the calls received. -/
structure bump_allocator (T : Type) where
  blocks : List Nat
  memory : Nat → Nat → Option T
  calls : List allocator_call

/-- Modelled from the spec: how the allocator answers
`try_grow_array_in_place(array, old_size, new_size)` in a given state. The
contract leaves the answer to the allocator, so it is a parameter. -/
abbrev grow_policy (T : Type) := bump_allocator T → Pointer → Nat → Nat → Bool

namespace bump_allocator

variable {T : Type}

/-- The element stored where `p` points, if any. -/
def load (a : bump_allocator T) : Pointer → Option T
  | Pointer.null => none
  | Pointer.addr b o => a.memory b o

/-- Overwrite the cell `p` points to. -/
def write (a : bump_allocator T) (p : Pointer) (cell : Option T) : bump_allocator T :=
  match p with
  | Pointer.null => a
  | Pointer.addr b o =>
    { a with memory := fun b2 o2 => if b2 = b ∧ o2 = o then cell else a.memory b2 o2 }

/-- Modelled from the spec: `allocate_uninitialized_array<T>(n)` returns memory
for `n` elements, uninitialized; it is a range no earlier allocation overlaps. -/
def allocate_uninitialized_array (a : bump_allocator T) (n : Nat) :
    Pointer × bump_allocator T :=
  let p := Pointer.addr a.blocks.length 0
  (p, { blocks := a.blocks ++ [n],
        memory := fun b o => if b = a.blocks.length then none else a.memory b o,
        calls := a.calls ++ [allocator_call.allocate_uninitialized_array n p] })

/-- Modelled from the spec: `try_grow_array_in_place(array, old_size, new_size)`
answers whether the allocation was extended without moving; on success the
pointer and the contents stay valid and only the allocation grows. -/
def try_grow_array_in_place (answer : grow_policy T) (a : bump_allocator T)
    (array : Pointer) (old_size new_size : Nat) : Bool × bump_allocator T :=
  let grew := answer a array old_size new_size
  (grew, { blocks := match grew, array with
                     | true, Pointer.addr b o => a.blocks.set b (o + new_size)
                     | _, _ => a.blocks,
           memory := a.memory,
           calls := a.calls ++
             [allocator_call.try_grow_array_in_place array old_size new_size grew] })

/-- Modelled from the spec: `deallocate(ptr, size_bytes, alignment)` releases
memory; the cells of the released allocation are no longer readable. -/
def deallocate (a : bump_allocator T) (p : Pointer) (size_bytes alignment : Nat) :
    bump_allocator T :=
  { blocks := a.blocks,
    memory := match p with
              | Pointer.null => a.memory
              | Pointer.addr b _ => fun b2 o2 => if b2 = b then none else a.memory b2 o2,
    calls := a.calls ++ [allocator_call.deallocate p size_bytes alignment] }

end bump_allocator

/-! ## `raw_bump_vector` -/

/-- The loop of `std::uninitialized_move(first, last, d_first)`: `n` elements
left to move from `first` to `d_first`; returns the memory and the advanced
destination. -/
def uninitialized_move_loop {T : Type} (a : bump_allocator T) :
    Nat → Pointer → Pointer → bump_allocator T × Pointer
  | 0, _, d_first => (a, d_first)
  | n + 1, first, d_first =>
    uninitialized_move_loop (a.write d_first (a.load first)) n (first.add 1) (d_first.add 1)

/-- The call `std::uninitialized_move(first, last, d_first)`. -/
def uninitialized_move {T : Type} (a : bump_allocator T) (first last d_first : Pointer) :
    bump_allocator T × Pointer :=
  uninitialized_move_loop a (narrow_cast_size_t (last.diff first)) first d_first

/-- The call `std::destroy(first, last)`: `raw_bump_vector` requires
`std::is_trivially_destructible_v<T>`, so destroying a range does nothing. -/
def destroy {T : Type} (a : bump_allocator T) (_first _last : Pointer) : bump_allocator T := a

/-- The class `raw_bump_vector<T, BumpAllocator>`: its three pointers, and the
state of the allocator that `allocator_` points to. -/
structure raw_bump_vector (T : Type) where
  data_ : Pointer
  data_end_ : Pointer
  capacity_end_ : Pointer
  allocator_ : bump_allocator T

namespace raw_bump_vector

variable {T : Type}

/-- The constructor `raw_bump_vector(BumpAllocator *allocator)`: the three
pointers take their default member initializer `nullptr`. -/
def create (allocator : bump_allocator T) : raw_bump_vector T :=
  { data_ := Pointer.null, data_end_ := Pointer.null, capacity_end_ := Pointer.null,
    allocator_ := allocator }

/-- The accessor `empty()`. -/
def empty (v : raw_bump_vector T) : Bool := decide (v.data_ = v.data_end_)

/-- The accessor `size()`. -/
def size (v : raw_bump_vector T) : Nat := narrow_cast_size_t (v.data_end_.diff v.data_)

/-- The accessor `capacity()`. -/
def capacity (v : raw_bump_vector T) : Nat :=
  narrow_cast_size_t (v.capacity_end_.diff v.data_)

/-- The accessor `data()`. -/
def data (v : raw_bump_vector T) : Pointer := v.data_

/-- The method `clear()`. -/
def clear [element_layout T] (v : raw_bump_vector T) : raw_bump_vector T :=
  if v.data_ ≠ Pointer.null then
    let a := destroy v.allocator_ v.data_ v.data_end_
    let a := a.deallocate v.data_
      (narrow_cast_size_t (v.data_end_.diff v.data_) * element_layout.sizeof T)
      (element_layout.alignof T)
    { data_ := Pointer.null, data_end_ := Pointer.null, capacity_end_ := Pointer.null,
      allocator_ := a }
  else v

/-- The method `reserve_grow(new_size)`; its assertion `new_size > capacity()`
is the hypothesis of the theorems about it. -/
def reserve_grow [element_layout T] (answer : grow_policy T) (v : raw_bump_vector T)
    (new_size : Nat) : raw_bump_vector T :=
  if v.data_ ≠ Pointer.null then
    let r := v.allocator_.try_grow_array_in_place answer v.data_ v.capacity new_size
    let grew := r.1
    let v := { v with allocator_ := r.2 }
    if grew then
      { v with capacity_end_ := v.data_.add new_size }
    else
      let r := v.allocator_.allocate_uninitialized_array new_size
      let new_data := r.1
      let m := uninitialized_move r.2 v.data_ v.data_end_ new_data
      let new_data_end := m.2
      let v := clear { v with allocator_ := m.1 }
      { v with data_ := new_data, data_end_ := new_data_end,
               capacity_end_ := new_data.add new_size }
  else
    let r := v.allocator_.allocate_uninitialized_array new_size
    { data_ := r.1, data_end_ := r.1, capacity_end_ := r.1.add new_size, allocator_ := r.2 }

/-- The method `reserve(size)`. -/
def reserve [element_layout T] (answer : grow_policy T) (v : raw_bump_vector T)
    (size : Nat) : raw_bump_vector T :=
  if v.capacity < size then reserve_grow answer v size else v

/-- The constant `minimum_capacity` of `reserve_grow_by_at_least`. -/
def minimum_capacity : Nat := 4

/-- The private method `reserve_grow_by_at_least(minimum_new_entries)`. -/
def reserve_grow_by_at_least [element_layout T] (answer : grow_policy T)
    (v : raw_bump_vector T) (minimum_new_entries : Nat) : raw_bump_vector T :=
  let old_capacity := v.capacity
  let new_size := max (max minimum_capacity (old_capacity + minimum_new_entries))
    (old_capacity * 2)
  reserve_grow answer v new_size

/-- The last two statements of `emplace_back`: construct the element at
`data_end_` by placement new, then advance `data_end_`. -/
def construct_at_end (v : raw_bump_vector T) (x : T) : raw_bump_vector T :=
  let v := { v with allocator_ := v.allocator_.write v.data_end_ (some x) }
  { v with data_end_ := v.data_end_.add 1 }

/-- The method `emplace_back(args...)`, with `x` the element built from `args`. -/
def emplace_back [element_layout T] (answer : grow_policy T) (v : raw_bump_vector T)
    (x : T) : raw_bump_vector T :=
  let v := if v.capacity_end_ = v.data_end_ then reserve_grow_by_at_least answer v 1 else v
  construct_at_end v x

/-- The cells `data()[0 .. size())`, in order. -/
def elements (v : raw_bump_vector T) : List (Option T) :=
  (List.range v.size).map fun i => v.allocator_.load (v.data.add i)

/-- The data-model invariant `data <= data_end <= capacity_end`. -/
def invariant (v : raw_bump_vector T) : Prop :=
  Pointer.le v.data_ v.data_end_ ∧ Pointer.le v.data_end_ v.capacity_end_

instance decInvariant (v : raw_bump_vector T) : Decidable v.invariant := by
  unfold invariant; infer_instance

/-- The storage `[data, capacity_end)` lies inside one allocation made by the
allocator (the vector "owns the memory range it currently holds from it"). -/
def owns_storage (v : raw_bump_vector T) : Prop :=
  match v.data_ with
  | Pointer.null => True
  | Pointer.addr b o =>
    match v.allocator_.blocks[b]? with
    | some n => o + v.capacity ≤ n
    | none => False

instance decOwnsStorage (v : raw_bump_vector T) : Decidable v.owns_storage := by
  unfold owns_storage; split
  · infer_instance
  · split <;> infer_instance

/-- A vector in a valid state: the pointer invariant holds and the storage is
an allocation of its allocator. -/
def well_formed (v : raw_bump_vector T) : Prop := v.invariant ∧ v.owns_storage

instance decWellFormed (v : raw_bump_vector T) : Decidable v.well_formed := by
  unfold well_formed; infer_instance

/-- The capacities reached by appending one element at a time to an empty
vector: nothing allocated and nothing stored, or a capacity `4 * 2 ^ j` that
the size has not outgrown and that the previous capacity could not hold. -/
def growth_state (v : raw_bump_vector T) : Prop :=
  (v.size = 0 ∧ v.capacity = 0) ∨
  ∃ j, v.capacity = 4 * 2 ^ j ∧ 1 ≤ v.size ∧ v.size ≤ v.capacity ∧
    (j = 0 ∨ 4 * 2 ^ (j - 1) < v.size)

end raw_bump_vector

/-- An allocator that has not been used yet. -/
def fresh_allocator (T : Type) : bump_allocator T :=
  { blocks := [], memory := fun _ _ => none, calls := [] }

/-- The policy of an allocator that grows an array in place exactly when it has
received an odd number of calls so far. -/
def alternating_policy (T : Type) : grow_policy T :=
  fun a _ _ _ => a.calls.length % 2 == 1

/-- The policy of an allocator that never grows an array in place. -/
def never_policy (T : Type) : grow_policy T := fun _ _ _ _ => false

/-- A vector of `int` that received 10, 20, 30 by `emplace_back`: size 3,
capacity 4. -/
def three_ints : raw_bump_vector Int :=
  [10, 20, 30].foldl (raw_bump_vector.emplace_back (alternating_policy Int))
    (raw_bump_vector.create (fresh_allocator Int))

/-- A vector of `int` that received 1, 2, 3, 4 by `emplace_back`: size 4,
capacity 4. -/
def four_ints : raw_bump_vector Int :=
  [1, 2, 3, 4].foldl (raw_bump_vector.emplace_back (never_policy Int))
    (raw_bump_vector.create (fresh_allocator Int))

/-! ## The source locator -/

/-- The byte `'\n'`, the line terminator `locator::position` looks for. -/
def line_feed : Nat := 10

/-- The struct `source_position` (declared in `location.h`), with the fields in
the order `locator::position` initializes them. -/
structure source_position where
  line_number : Int
  column_number : Int
  offset : Nat
  deriving DecidableEq, Repr

/-- The class `locator`: `input_` is the source buffer, a list of bytes; a
`const char *` into it is the index of the byte it points to. -/
structure locator where
  input_ : List Nat
  deriving DecidableEq, Repr

namespace locator

/-- The loop of `locator::position`: `steps` bytes are left between `c` and
`source`; the state is `number_of_line_terminators`, a 32-bit `int` whose
increment wraps around, and `last_line_terminator` (`none` for `nullptr`). -/
def position_loop (input : List Nat) : Nat → Nat → Int → Option Nat → Int × Option Nat
  | 0, _, number_of_line_terminators, last_line_terminator =>
    (number_of_line_terminators, last_line_terminator)
  | steps + 1, c, number_of_line_terminators, last_line_terminator =>
    if input[c]? = some line_feed then
      position_loop input steps (c + 1) (wrap_int (number_of_line_terminators + 1)) (some c)
    else
      position_loop input steps (c + 1) number_of_line_terminators last_line_terminator

/-- The method `locator::position(source)`, with `source` given as the index
`source - input_`; `line_number` and `column_number` are 32-bit `int`s. -/
def position (l : locator) (source : Nat) : source_position :=
  let offset : Nat := source
  let r := position_loop l.input_ source 0 0 none
  let number_of_line_terminators := r.1
  let column_number : Int :=
    match r.2 with
    | some last_line_terminator => narrow_cast_int ((source : Int) - (last_line_terminator : Int))
    | none => narrow_cast_int ((offset + 1 : Nat) : Int)
  { line_number := wrap_int (1 + number_of_line_terminators), column_number := column_number,
    offset := offset }

end locator

/-- The bytes of the text `a\nbb\nccc`. -/
def sample_source : List Nat := [97, 10, 98, 98, 10, 99, 99, 99]

/-- The class `source_code_span` (declared in `location.h`): the two pointers
`begin_` and `end_` into the source buffer, given as indices. -/
structure source_code_span where
  begin_ : Nat
  end_ : Nat
  deriving DecidableEq, Repr

/-- The method `source_code_span::begin()`. -/
def source_code_span.begin (s : source_code_span) : Nat := s.begin_

/-- The method `source_code_span::end()`. -/
def source_code_span.end_pointer (s : source_code_span) : Nat := s.end_

/-- The class `source_range` (declared in `location.h`): the positions `begin_`
and `end_`, in the order of its constructor `source_range(begin, end)`. -/
structure source_range where
  begin_ : source_position
  end_ : source_position
  deriving DecidableEq, Repr

/-- The method `source_range::begin()`. -/
def source_range.begin (r : source_range) : source_position := r.begin_

/-- The method `source_range::end()`. -/
def source_range.end_position (r : source_range) : source_position := r.end_

/-- The method `locator::range(span)`. -/
def locator.range (l : locator) (span : source_code_span) : source_range :=
  { begin_ := l.position span.begin, end_ := l.position span.end_pointer }

/-! ## The chunked byte buffer -/

/-- The allocation a pointer points into, if it is not null. -/
def Pointer.block : Pointer → Option Nat
  | Pointer.null => none
  | Pointer.addr b _ => some b

/-- The struct `byte_buffer::chunk` of `byte-buffer.h`: `std::byte* data` and
`size_type size` (an `::iovec` with `iov_base` and `iov_len` where `writev`
exists). -/
structure chunk where
  data : Pointer
  size : Nat
  deriving DecidableEq, Repr

/-- Modelled from the spec: the memory that chunks live in. `make_chunk` and
`delete_chunk` are declared in `byte-buffer.h` and defined in `byte-buffer.cpp`,
which is absent from the sources. `sizes` is the allocated size of every chunk
made so far, `bytes` the contents (`none` is a byte never written, or released)
and `deleted` the allocations given back. -/
structure chunk_heap where
  sizes : List Nat
  bytes : Nat → Nat → Option Nat
  deleted : List Pointer

namespace chunk_heap

/-- The `n` bytes found from `p` on. -/
def read (h : chunk_heap) (p : Pointer) (n : Nat) : List (Option Nat) :=
  (List.range n).map fun i =>
    match p with
    | Pointer.null => none
    | Pointer.addr b o => h.bytes b (o + i)

/-- The call `std::memcpy(dest, src, n)`, with the `n` source bytes as a list. -/
def memcpy (h : chunk_heap) (dest : Pointer) (src : List Nat) : chunk_heap :=
  match dest with
  | Pointer.null => h
  | Pointer.addr b o =>
    { h with bytes := fun b2 o2 =>
        if b2 = b ∧ o ≤ o2 ∧ o2 < o + src.length then src[o2 - o]? else h.bytes b2 o2 }

end chunk_heap

/-- The writer passed to `byte_buffer::append(max_byte_count, f)`: called with
the cursor, it may write to memory and reports how many bytes it wrote. -/
abbrev chunk_writer := Pointer → chunk_heap → Nat × chunk_heap

/-- The class `byte_buffer` of `byte-buffer.h`: its members `chunks_`,
`cursor_` and `current_chunk_end_`, and the memory its chunks live in. -/
structure byte_buffer where
  chunks_ : List chunk
  cursor_ : Pointer
  current_chunk_end_ : Pointer
  heap : chunk_heap

namespace byte_buffer

/-- The constant `byte_buffer::default_chunk_size`. -/
def default_chunk_size : Nat := 4096

/-- Modelled from the spec: `make_chunk(size)` (body absent) allocates a
contiguous byte region of the fixed size `size`, not yet written. -/
def make_chunk (h : chunk_heap) (size : Nat) : chunk × chunk_heap :=
  ({ data := Pointer.addr h.sizes.length 0, size := size },
   { sizes := h.sizes ++ [size],
     bytes := fun b o => if b = h.sizes.length then none else h.bytes b o,
     deleted := h.deleted })

/-- Modelled from the spec: `delete_chunk(c)` (body absent) frees the backing
memory of a chunk, which is no longer readable. -/
def delete_chunk (h : chunk_heap) (c : chunk) : chunk_heap :=
  { sizes := h.sizes,
    bytes := match c.data with
             | Pointer.null => h.bytes
             | Pointer.addr b _ => fun b2 o2 => if b2 = b then none else h.bytes b2 o2,
    deleted := h.deleted ++ [c.data] }

/-- Modelled from the spec: `chunk_begin(c)` (body absent), the start of the
region of a chunk. -/
def chunk_begin (c : chunk) : Pointer := c.data

/-- Modelled from the spec: `chunk_end(c)` (body absent), the end of the region
of a chunk. -/
def chunk_end (c : chunk) : Pointer := c.data.add c.size

/-- Modelled from the spec: `chunk_size(c)` (body absent), the length of the
region of a chunk. -/
def chunk_size (c : chunk) : Nat := c.size

/-- Modelled from the spec: `bytes_remaining_in_current_chunk()` (body absent),
the room between the cursor and the allocated end of the current chunk. -/
def bytes_remaining_in_current_chunk (b : byte_buffer) : Nat :=
  narrow_cast_size_t (b.current_chunk_end_.diff b.cursor_)

/-- Modelled from the spec: `bytes_used_in_current_chunk()` (body absent), the
tracked used length of the last chunk: from its start to the cursor. -/
def bytes_used_in_current_chunk (b : byte_buffer) : Nat :=
  match b.chunks_.getLast? with
  | some c => narrow_cast_size_t (b.cursor_.diff (chunk_begin c))
  | none => 0

/-- Modelled from the spec: `update_current_chunk_size()` (body absent) records
the used length of the last chunk as its size, when the chunk is superseded or
handed over. -/
def update_current_chunk_size (b : byte_buffer) : byte_buffer :=
  match b.chunks_.getLast? with
  | some c =>
    { b with chunks_ := b.chunks_.dropLast ++ [{ c with size := b.bytes_used_in_current_chunk }] }
  | none => b

/-- Modelled from the spec: `add_new_chunk(chunk_size)` (body absent) creates a
new last chunk and points the cursor at its start. -/
def add_new_chunk (b : byte_buffer) (chunk_size : Nat) : byte_buffer :=
  let r := make_chunk b.heap chunk_size
  { chunks_ := b.chunks_ ++ [r.1], cursor_ := chunk_begin r.1,
    current_chunk_end_ := chunk_end r.1, heap := r.2 }

/-- Modelled from the spec: the constructor `byte_buffer()` (body absent). The
cursor of a buffer points into its last chunk, so a fresh buffer has one chunk,
of the default size, with nothing used. -/
def create (heap : chunk_heap) : byte_buffer :=
  add_new_chunk { chunks_ := [], cursor_ := Pointer.null, current_chunk_end_ := Pointer.null,
                  heap := heap } default_chunk_size

/-- Modelled from the spec: `reserve(extra_byte_count)` (body absent): if
insufficient room remains in the current chunk, allocates a new chunk sized
`max(byte_count, default_chunk_size)`. -/
def reserve (b : byte_buffer) (extra_byte_count : Nat) : byte_buffer :=
  if b.bytes_remaining_in_current_chunk < extra_byte_count then
    add_new_chunk (update_current_chunk_size b) (max extra_byte_count default_chunk_size)
  else b

/-- Modelled from the spec: `append(byte_count)` (body absent) reserves
`byte_count` contiguous bytes in the current chunk, advances the cursor by
`byte_count` and returns a pointer to the reserved region. -/
def append (b : byte_buffer) (byte_count : Nat) : Pointer × byte_buffer :=
  let b := reserve b byte_count
  (b.cursor_, { b with cursor_ := b.cursor_.add byte_count })

/-- The template method `append(max_byte_count, f)` of `byte-buffer.h`. The
failure of `QLJS_ASSERT(bytes_written <= max_byte_count)` is fatal: the result
is then `Except.error`, with the state the buffer is left in. -/
def append_with_writer (b : byte_buffer) (max_byte_count : Nat) (f : chunk_writer) :
    Except byte_buffer byte_buffer :=
  let b := reserve b max_byte_count
  let r := f b.cursor_ b.heap
  let bytes_written := r.1
  let b := { b with heap := r.2 }
  if bytes_written ≤ max_byte_count then
    Except.ok { b with cursor_ := b.cursor_.add bytes_written }
  else
    Except.error b

/-- Modelled from the spec: `append_copy(data)` (body absent) copies the bytes
into a reserved region of exactly their length. -/
def append_copy (b : byte_buffer) (data : List Nat) : byte_buffer :=
  let r := append b data.length
  { r.2 with heap := r.2.heap.memcpy r.1 data }

/-- Modelled from the spec: `prepend_copy(data)` (body absent) inserts, before
all existing chunks, a new chunk containing exactly `data`. -/
def prepend_copy (b : byte_buffer) (data : List Nat) : byte_buffer :=
  let r := make_chunk b.heap data.length
  { b with chunks_ := r.1 :: b.chunks_, heap := r.2.memcpy (chunk_begin r.1) data }

/-- Modelled from the spec: `size()` (body absent), the sum of the used length
of each chunk: the size of a superseded chunk, and the bytes used in the last
one. -/
def size (b : byte_buffer) : Nat :=
  (b.chunks_.dropLast.map chunk_size).sum + b.bytes_used_in_current_chunk

/-- Modelled from the spec: `copy_to(raw_out)` (body absent) copies the used
bytes of all chunks, in chunk order, into one contiguous region; the result is
the bytes written from `raw_out` on. -/
def copy_to (b : byte_buffer) : List (Option Nat) :=
  (b.chunks_.dropLast.flatMap fun c => b.heap.read (chunk_begin c) (chunk_size c)) ++
    match b.chunks_.getLast? with
    | some c => b.heap.read (chunk_begin c) b.bytes_used_in_current_chunk
    | none => []

/-- A buffer in a valid state: every chunk is an allocation of its own, made
in the heap, and the cursor and the current end point into the last chunk. -/
def well_formed (b : byte_buffer) : Prop :=
  (∀ c ∈ b.chunks_, ∃ k, c.data = Pointer.addr k 0 ∧ k < b.heap.sizes.length) ∧
  List.Pairwise (fun c d : chunk => c.data.block ≠ d.data.block) b.chunks_ ∧
  ∃ last used, b.chunks_.getLast? = some last ∧ b.cursor_ = last.data.add used ∧
    b.current_chunk_end_ = last.data.add last.size ∧ used ≤ last.size

end byte_buffer

/-- The class `byte_buffer_iovec` of `byte-buffer.h`: its members `chunks_`,
`first_chunk_` (an iterator, given as an index into `chunks_`) and
`first_chunk_allocation_`, and the memory the chunks live in. -/
structure byte_buffer_iovec where
  chunks_ : List chunk
  first_chunk_ : Nat
  first_chunk_allocation_ : chunk
  heap : chunk_heap

namespace byte_buffer_iovec

/-- Modelled from the spec: the constructor `byte_buffer_iovec(chunks)` (body
absent) takes over the chunks; the first not-fully-consumed chunk is the first
one. -/
def create (chunks : List chunk) (heap : chunk_heap) : byte_buffer_iovec :=
  { chunks_ := chunks, first_chunk_ := 0,
    first_chunk_allocation_ := chunks.head?.getD { data := Pointer.null, size := 0 },
    heap := heap }

/-- Modelled from the spec: `iovec()` with `iovec_count()` (bodies absent), the
ordered list of (pointer, length) regions still to be written. -/
def iovec (v : byte_buffer_iovec) : List chunk := v.chunks_.drop v.first_chunk_

/-- Modelled from the spec: `iovec_count()` (body absent). -/
def iovec_count (v : byte_buffer_iovec) : Nat := v.iovec.length

/-- The bytes of the regions of the descriptor list, concatenated in order. -/
def bytes (v : byte_buffer_iovec) : List (Option Nat) :=
  v.iovec.flatMap fun c => v.heap.read c.data c.size

/-- The total of the lengths of the regions still to be written. -/
def remaining (v : byte_buffer_iovec) : Nat := (v.iovec.map fun c => c.size).sum

/-- Modelled from the spec: one fully dropped entry of `remove_front`: its
backing chunk is freed and the list advances to the next entry. -/
def drop_first_chunk (v : byte_buffer_iovec) : byte_buffer_iovec :=
  { chunks_ := v.chunks_, first_chunk_ := v.first_chunk_ + 1,
    first_chunk_allocation_ := (v.chunks_[v.first_chunk_ + 1]?).getD v.first_chunk_allocation_,
    heap := byte_buffer.delete_chunk v.heap v.first_chunk_allocation_ }

/-- Modelled from the spec: the entry that only partially satisfies `count` in
`remove_front`: its starting pointer and its length shrink in place. -/
def shrink_first_chunk (v : byte_buffer_iovec) (c : chunk) (count : Nat) : byte_buffer_iovec :=
  let shrunk : chunk := { data := c.data.add count, size := c.size - count }
  { v with chunks_ := v.chunks_.set v.first_chunk_ shrunk }

/-- Modelled from the spec: the loop of `remove_front(count)` (body absent),
with `entries` the number of entries left in the list: entries whose length is
`<= count` are dropped, `count` decreasing by their length, and the entry that
only partially satisfies `count` shrinks, until `count` reaches zero. Removing
more bytes than remain is fatal: the result is then `none`. -/
def remove_front_loop : Nat → byte_buffer_iovec → Nat → Option byte_buffer_iovec
  | _, v, 0 => some v
  | 0, _, _ + 1 => none
  | entries + 1, v, count + 1 =>
    match v.chunks_[v.first_chunk_]? with
    | none => none
    | some c =>
      if c.size ≤ count + 1 then
        remove_front_loop entries (drop_first_chunk v) (count + 1 - c.size)
      else
        some (shrink_first_chunk v c (count + 1))

/-- Modelled from the spec: `remove_front(count)` (body absent). -/
def remove_front (v : byte_buffer_iovec) (count : Nat) : Option byte_buffer_iovec :=
  remove_front_loop v.iovec_count v count

/-- A descriptor list in a valid state: its regions lie in allocations of their
own, and `first_chunk_allocation_` is the allocation of the first region. -/
def well_formed (v : byte_buffer_iovec) : Prop :=
  (∀ c ∈ v.iovec, c.data ≠ Pointer.null) ∧
  List.Pairwise (fun c d : chunk => c.data.block ≠ d.data.block) v.iovec ∧
  ∀ c, v.iovec.head? = some c → v.first_chunk_allocation_.data.block = c.data.block

end byte_buffer_iovec

/-- Modelled from the spec: `to_iovec()` (body absent) hands the chunks of the
buffer over to a descriptor list without copying, the last chunk with its used
length. -/
def byte_buffer.to_iovec (b : byte_buffer) : byte_buffer_iovec :=
  byte_buffer_iovec.create (byte_buffer.update_current_chunk_size b).chunks_ b.heap

/-- A heap in which no chunk has been made yet. -/
def fresh_heap : chunk_heap := { sizes := [], bytes := fun _ _ => none, deleted := [] }

/-- The bytes of `He`. -/
def bytes_He : List Nat := [72, 101]

/-- The bytes of `llo`. -/
def bytes_llo : List Nat := [108, 108, 111]

/-- A buffer that received `He` and then `llo` by `append_copy`. -/
def hello_buffer : byte_buffer :=
  byte_buffer.append_copy (byte_buffer.append_copy (byte_buffer.create fresh_heap) bytes_He)
    bytes_llo

/-- A writer that stores the byte 33 at the cursor and reports one byte. -/
def one_byte_writer : chunk_writer := fun p h => (1, h.memcpy p [33])

/-- A writer that writes nothing and reports seven bytes. -/
def overreporting_writer : chunk_writer := fun _ h => (7, h)

/-! ## `vector_instrumentation` and `instrumented_vector` -/

namespace vector_instrumentation

/-- The enumeration `vector_instrumentation::event`. -/
inductive event where
  | append
  | assign
  | clear
  | create
  | destroy
  deriving DecidableEq, Repr

/-- The struct `vector_instrumentation::entry`; `object_id` is the address of
the vector and `owner` its label. -/
structure entry where
  object_id : Nat
  owner : String
  event : event
  data_pointer : Pointer
  size : Nat
  capacity : Nat
  deriving DecidableEq, Repr

end vector_instrumentation

/-- The class `vector_instrumentation`: its member `entries_`. -/
structure vector_instrumentation where
  entries_ : List vector_instrumentation.entry
  deriving DecidableEq, Repr

/-- Modelled from the spec: `vector_instrumentation::add_entry` (declared in
`vector.h`, body absent) appends one entry to the log and leaves the earlier
entries as they are. -/
def vector_instrumentation.add_entry (log : vector_instrumentation) (object_id : Nat)
    (owner : String) (event : vector_instrumentation.event) (data_pointer : Pointer)
    (size capacity : Nat) : vector_instrumentation :=
  { entries_ := log.entries_ ++
      [{ object_id := object_id, owner := owner, event := event,
         data_pointer := data_pointer, size := size, capacity := capacity }] }

/-- The members of the template parameter `Vector` that `instrumented_vector`
calls, for a vector type `V` with elements of type `T`. -/
structure vector_operations (V T : Type) where
  data : V → Pointer
  size : V → Nat
  capacity : V → Nat
  empty : V → Bool
  emplace_back : V → T → V
  clear : V → V
  reserve : V → Nat → V

/-- The class `raw_bump_vector` as a `Vector`: `bump_vector<T, BumpAllocator>` is
`instrumented_vector<raw_bump_vector<T, BumpAllocator>>`. -/
def raw_bump_vector.operations {T : Type} [element_layout T] (answer : grow_policy T) :
    vector_operations (raw_bump_vector T) T :=
  { data := raw_bump_vector.data, size := raw_bump_vector.size,
    capacity := raw_bump_vector.capacity, empty := raw_bump_vector.empty,
    emplace_back := raw_bump_vector.emplace_back answer, clear := raw_bump_vector.clear,
    reserve := raw_bump_vector.reserve answer }

/-- One call of a sequence driving a vector. -/
inductive vector_call (T : Type) where
  | emplace_back (x : T)
  | clear
  | reserve (new_capacity : Nat)
  deriving DecidableEq, Repr

/-- A `Vector` that does nothing but record the calls it receives, in order. -/
def recording_operations (T : Type) : vector_operations (List (vector_call T)) T :=
  { data := fun _ => Pointer.null, size := fun _ => 0, capacity := fun _ => 0,
    empty := fun _ => true,
    emplace_back := fun trace x => trace ++ [vector_call.emplace_back x],
    clear := fun trace => trace ++ [vector_call.clear],
    reserve := fun trace n => trace ++ [vector_call.reserve n] }

/-- The vector `V` driven directly by one call. -/
def vector_operations.call {V T : Type} (ops : vector_operations V T) (v : V) :
    vector_call T → V
  | vector_call.emplace_back x => ops.emplace_back v x
  | vector_call.clear => ops.clear v
  | vector_call.reserve n => ops.reserve v n

/-- The class `instrumented_vector<Vector>`: its members `data_` and
`debug_owner_` (which exists only with profiling), and `this_`, the address of
the object. -/
structure instrumented_vector (V : Type) where
  this_ : Nat
  data_ : V
  debug_owner_ : String

namespace instrumented_vector

variable {V T : Type}

/-- The method `add_instrumentation_entry(event)`: with
`QLJS_FEATURE_VECTOR_PROFILING` it adds an entry to
`vector_instrumentation::instance`, and without it does nothing. -/
def add_instrumentation_entry (ops : vector_operations V T) (profiling : Bool)
    (v : instrumented_vector V) (event : vector_instrumentation.event)
    (instance_ : vector_instrumentation) : vector_instrumentation :=
  if profiling then
    instance_.add_entry v.this_ v.debug_owner_ event (ops.data v.data_) (ops.size v.data_)
      (ops.capacity v.data_)
  else instance_

/-- The method `data()`. -/
def data (ops : vector_operations V T) (v : instrumented_vector V) : Pointer :=
  ops.data v.data_

/-- The method `size()`. -/
def size (ops : vector_operations V T) (v : instrumented_vector V) : Nat := ops.size v.data_

/-- The method `capacity()`. -/
def capacity (ops : vector_operations V T) (v : instrumented_vector V) : Nat :=
  ops.capacity v.data_

/-- The method `empty()`. -/
def empty (ops : vector_operations V T) (v : instrumented_vector V) : Bool :=
  ops.empty v.data_

/-- The method `emplace_back(args...)`, on the vector and the log. -/
def emplace_back (ops : vector_operations V T) (profiling : Bool)
    (s : instrumented_vector V × vector_instrumentation) (x : T) :
    instrumented_vector V × vector_instrumentation :=
  let v := { s.1 with data_ := ops.emplace_back s.1.data_ x }
  (v, add_instrumentation_entry ops profiling v vector_instrumentation.event.append s.2)

/-- The method `clear()`, on the vector and the log. -/
def clear (ops : vector_operations V T) (profiling : Bool)
    (s : instrumented_vector V × vector_instrumentation) :
    instrumented_vector V × vector_instrumentation :=
  let v := { s.1 with data_ := ops.clear s.1.data_ }
  (v, add_instrumentation_entry ops profiling v vector_instrumentation.event.clear s.2)

/-- The method `reserve(new_capacity)`, on the vector and the log. -/
def reserve (ops : vector_operations V T) (_profiling : Bool)
    (s : instrumented_vector V × vector_instrumentation) (new_capacity : Nat) :
    instrumented_vector V × vector_instrumentation :=
  ({ s.1 with data_ := ops.reserve s.1.data_ new_capacity }, s.2)

/-- The instrumented vector driven by one call. -/
def call (ops : vector_operations V T) (profiling : Bool)
    (s : instrumented_vector V × vector_instrumentation) :
    vector_call T → instrumented_vector V × vector_instrumentation
  | vector_call.emplace_back x => emplace_back ops profiling s x
  | vector_call.clear => clear ops profiling s
  | vector_call.reserve n => reserve ops profiling s n

end instrumented_vector

namespace raw_bump_vector

variable {T : Type}

/-- The method `reserve_grow(new_size)` with `QLJS_ASSERT(new_size >
this->capacity())` evaluated: `none` when the assertion fails. -/
def reserve_grow_asserted [element_layout T] (answer : grow_policy T) (v : raw_bump_vector T)
    (new_size : Nat) : Option (raw_bump_vector T) :=
  if new_size > v.capacity then some (reserve_grow answer v new_size) else none

/-- The method `reserve(size)`, over `reserve_grow_asserted`. -/
def reserve_asserted [element_layout T] (answer : grow_policy T) (v : raw_bump_vector T)
    (size : Nat) : Option (raw_bump_vector T) :=
  if v.capacity < size then reserve_grow_asserted answer v size else some v

/-- The private method `reserve_grow_by_at_least(minimum_new_entries)`, over
`reserve_grow_asserted`. -/
def reserve_grow_by_at_least_asserted [element_layout T] (answer : grow_policy T)
    (v : raw_bump_vector T) (minimum_new_entries : Nat) : Option (raw_bump_vector T) :=
  let old_capacity := v.capacity
  let new_size := max (max minimum_capacity (old_capacity + minimum_new_entries))
    (old_capacity * 2)
  reserve_grow_asserted answer v new_size

/-- The method `emplace_back(args...)`, over `reserve_grow_asserted`. -/
def emplace_back_asserted [element_layout T] (answer : grow_policy T) (v : raw_bump_vector T)
    (x : T) : Option (raw_bump_vector T) :=
  let grown :=
    if v.capacity_end_ = v.data_end_ then reserve_grow_by_at_least_asserted answer v 1
    else some v
  grown.map fun v => construct_at_end v x

/-- The value `new_size` of `reserve_grow_by_at_least` as 64-bit `std::size_t`
arithmetic computes it: the sum and the product wrap around at `2 ^ 64`. -/
def new_size_size_t (old_capacity minimum_new_entries : Nat) : Nat :=
  max (max minimum_capacity ((old_capacity + minimum_new_entries) % 2 ^ 64))
    ((old_capacity * 2) % 2 ^ 64)

end raw_bump_vector

/-! ## `instrumented_vector`: construction, moves and destruction -/

/-- The constructors and the move operations of the template parameter `Vector`
that `instrumented_vector` calls, for the allocator type `A`; a move gives the
vector moved to, and what is left in the vector moved from. -/
structure vector_lifecycle (V T A : Type) where
  construct : A → V
  construct_range : List T → A → V
  move_construct : V → V × V
  move_assign : V → V → V × V

namespace instrumented_vector

variable {V T A : Type}

/-- The entry of `add_instrumentation_entry(event)` for the vector `v`: its
address and owner label, the event, and `data()`, `size()` and `capacity()` as
they are at the call. -/
def entry_for (ops : vector_operations V T) (v : instrumented_vector V)
    (event : vector_instrumentation.event) : vector_instrumentation.entry :=
  { object_id := v.this_, owner := v.debug_owner_, event := event,
    data_pointer := ops.data v.data_, size := ops.size v.data_,
    capacity := ops.capacity v.data_ }

/-- The constructor `instrumented_vector(debug_owner, allocator)`, of the object
at the address `this_`. -/
def construct (ops : vector_operations V T) (life : vector_lifecycle V T A)
    (profiling : Bool) (this_ : Nat) (debug_owner : String) (allocator : A)
    (log : vector_instrumentation) : instrumented_vector V × vector_instrumentation :=
  let v : instrumented_vector V :=
    { this_ := this_, data_ := life.construct allocator, debug_owner_ := debug_owner }
  (v, add_instrumentation_entry ops profiling v vector_instrumentation.event.create log)

/-- The constructor `instrumented_vector(debug_owner, allocator, begin, end)`,
with the range `[begin, end)` as a list. -/
def construct_range (ops : vector_operations V T) (life : vector_lifecycle V T A)
    (profiling : Bool) (this_ : Nat) (debug_owner : String) (allocator : A) (range : List T)
    (log : vector_instrumentation) : instrumented_vector V × vector_instrumentation :=
  let v : instrumented_vector V :=
    { this_ := this_, data_ := life.construct_range range allocator,
      debug_owner_ := debug_owner }
  (v, add_instrumentation_entry ops profiling v vector_instrumentation.event.create log)

/-- The constructor `instrumented_vector(debug_owner, instrumented_vector &&other)`:
the result is the new vector, `other` as it is left, and the log. -/
def move_construct (ops : vector_operations V T) (life : vector_lifecycle V T A)
    (profiling : Bool) (this_ : Nat) (debug_owner : String) (other : instrumented_vector V)
    (log : vector_instrumentation) :
    (instrumented_vector V × instrumented_vector V) × vector_instrumentation :=
  let m := life.move_construct other.data_
  let v : instrumented_vector V :=
    { this_ := this_, data_ := m.1, debug_owner_ := debug_owner }
  let other := { other with data_ := m.2 }
  let log := add_instrumentation_entry ops profiling v vector_instrumentation.event.create log
  let log := add_instrumentation_entry ops profiling other vector_instrumentation.event.clear log
  ((v, other), log)

/-- The constructor `instrumented_vector(instrumented_vector &&other)`: with
profiling it delegates to the constructor above with the owner of `other`;
without profiling it is defaulted, which moves `data_` and logs nothing, as the
delegation then does. -/
def move_construct_same_owner (ops : vector_operations V T) (life : vector_lifecycle V T A)
    (profiling : Bool) (this_ : Nat) (other : instrumented_vector V)
    (log : vector_instrumentation) :
    (instrumented_vector V × instrumented_vector V) × vector_instrumentation :=
  move_construct ops life profiling this_ other.debug_owner_ other log

/-- The operator `operator=(instrumented_vector &&other)`: the result is the
vector assigned to, `other` as it is left, and the log. -/
def move_assign (ops : vector_operations V T) (life : vector_lifecycle V T A)
    (profiling : Bool) (v other : instrumented_vector V) (log : vector_instrumentation) :
    (instrumented_vector V × instrumented_vector V) × vector_instrumentation :=
  let m := life.move_assign v.data_ other.data_
  let v := { v with data_ := m.1 }
  let other := { other with data_ := m.2 }
  let log := add_instrumentation_entry ops profiling v vector_instrumentation.event.assign log
  let log := add_instrumentation_entry ops profiling other vector_instrumentation.event.clear log
  ((v, other), log)

/-- The destructor `~instrumented_vector()`: what it leaves in the log, before
the member `data_` is destroyed in its turn. -/
def destruct (ops : vector_operations V T) (profiling : Bool) (v : instrumented_vector V)
    (log : vector_instrumentation) : vector_instrumentation :=
  add_instrumentation_entry ops profiling v vector_instrumentation.event.destroy log

end instrumented_vector

/-- A heap vector of `int` for examples, as a list of its elements: its capacity
is its size. -/
def sample_vector_operations : vector_operations (List Int) Int :=
  { data := fun v => if v = [] then Pointer.null else Pointer.addr 0 0,
    size := fun v => v.length, capacity := fun v => v.length, empty := fun v => v.isEmpty,
    emplace_back := fun v x => v ++ [x], clear := fun _ => [], reserve := fun v _ => v }

/-- The constructors and moves of the heap vector for examples: a vector that
was moved from is left empty. -/
def sample_vector_lifecycle : vector_lifecycle (List Int) Int Unit :=
  { construct := fun _ => [], construct_range := fun range _ => range,
    move_construct := fun other => (other, []),
    move_assign := fun _ other => (other, []) }

/-- An instrumented heap vector at address 1, owned by `tokens`, holding 7, 8. -/
def sample_instrumented_vector : instrumented_vector (List Int) :=
  { this_ := 1, data_ := [7, 8], debug_owner_ := "tokens" }

/-- A log that holds one earlier entry. -/
def sample_log : vector_instrumentation :=
  { entries_ := [{ object_id := 1, owner := "tokens",
                   event := vector_instrumentation.event.create,
                   data_pointer := Pointer.null, size := 0, capacity := 0 }] }

end quick_lint_js

/-! ## Lemmas on the pointers alone -/

namespace quick_lint_js

variable {T : Type}

theorem uninitialized_move_loop_result (n : Nat) : ∀ (a : bump_allocator T) (p : Pointer)
    (nb o2 : Nat),
    (uninitialized_move_loop a n p (Pointer.addr nb o2)).2 = Pointer.addr nb (o2 + n) := by
  induction n with
  | zero => intro a p nb o2; simp [uninitialized_move_loop]
  | succ n ih =>
    intro a p nb o2
    simp only [uninitialized_move_loop, Pointer.add]
    rw [ih]
    congr 1
    omega

namespace raw_bump_vector

theorem invariant_cases (v : raw_bump_vector T) (h : v.invariant) :
    (v.data_ = Pointer.null ∧ v.data_end_ = Pointer.null ∧ v.capacity_end_ = Pointer.null) ∨
    ∃ b o s c, s ≤ c ∧ v.data_ = Pointer.addr b o ∧ v.data_end_ = Pointer.addr b (o + s) ∧
      v.capacity_end_ = Pointer.addr b (o + c) := by
  rcases v with ⟨d, e, c, a⟩
  rcases d with _ | ⟨b, o⟩ <;> rcases e with _ | ⟨b2, o2⟩ <;> rcases c with _ | ⟨b3, o3⟩ <;>
    simp [invariant, Pointer.le] at h ⊢
  obtain ⟨⟨rfl, h1⟩, rfl, h2⟩ := h
  exact ⟨b, o, o2 - o, o3 - o, by omega, ⟨rfl, rfl⟩, ⟨rfl, by omega⟩, rfl, by omega⟩

theorem reserve_grow_pointers [element_layout T] (answer : grow_policy T)
    (v : raw_bump_vector T) (n : Nat) (hinv : v.invariant) (hn : v.capacity < n) :
    (reserve_grow answer v n).invariant ∧ (reserve_grow answer v n).size = v.size ∧
    (reserve_grow answer v n).capacity = n := by
  rcases invariant_cases v hinv with ⟨h1, h2, h3⟩ | ⟨b, o, s, c, hsc, h1, h2, h3⟩
  · rcases v with ⟨d, e, ce, a⟩
    simp only at h1 h2 h3
    subst h1 h2 h3
    simp [invariant, reserve_grow, Pointer.le, Pointer.add, size, capacity, Pointer.diff,
      bump_allocator.allocate_uninitialized_array, narrow_cast_size_t]
  · rcases v with ⟨d, e, ce, a⟩
    simp only at h1 h2 h3
    subst h1 h2 h3
    have hcap : capacity (⟨Pointer.addr b o, Pointer.addr b (o + s), Pointer.addr b (o + c), a⟩ :
        raw_bump_vector T) = c := by
      simp [capacity, Pointer.diff, narrow_cast_size_t]
    rw [hcap] at hn
    cases hg : answer a (Pointer.addr b o) c n
    · have m1 := uninitialized_move_loop_result s
        (bump_allocator.allocate_uninitialized_array
          (bump_allocator.try_grow_array_in_place answer a (Pointer.addr b o) c n).2 n).2
        (Pointer.addr b o) a.blocks.length 0
      have hr : (reserve_grow answer (⟨Pointer.addr b o, Pointer.addr b (o + s),
          Pointer.addr b (o + c), a⟩ : raw_bump_vector T) n).data_ =
            Pointer.addr a.blocks.length 0 ∧
          (reserve_grow answer (⟨Pointer.addr b o, Pointer.addr b (o + s),
          Pointer.addr b (o + c), a⟩ : raw_bump_vector T) n).data_end_ =
            Pointer.addr a.blocks.length (0 + s) ∧
          (reserve_grow answer (⟨Pointer.addr b o, Pointer.addr b (o + s),
          Pointer.addr b (o + c), a⟩ : raw_bump_vector T) n).capacity_end_ =
            Pointer.addr a.blocks.length (0 + n) := by
        simp [reserve_grow, hcap, hg, bump_allocator.try_grow_array_in_place, clear, destroy,
          uninitialized_move, Pointer.diff, narrow_cast_size_t, Pointer.add,
          bump_allocator.allocate_uninitialized_array] at m1 ⊢
        exact m1
      obtain ⟨r1, r2, r3⟩ := hr
      simp only [invariant, size, capacity, r1, r2, r3]
      simp [Pointer.le, Pointer.diff, narrow_cast_size_t]
      omega
    · simp [reserve_grow, hcap, hg, bump_allocator.try_grow_array_in_place, Pointer.add,
        invariant, Pointer.le, size, capacity, Pointer.diff, narrow_cast_size_t]
      omega

theorem construct_at_end_pointers (v : raw_bump_vector T) (x : T) (hinv : v.invariant)
    (h : v.size < v.capacity) :
    (construct_at_end v x).invariant ∧ (construct_at_end v x).size = v.size + 1 ∧
    (construct_at_end v x).capacity = v.capacity := by
  rcases invariant_cases v hinv with ⟨h1, h2, h3⟩ | ⟨b, o, s, c, hsc, h1, h2, h3⟩
  · simp [size, capacity, h1, h2, h3] at h
  · rcases v with ⟨d, e, ce, a⟩
    simp only at h1 h2 h3
    subst h1 h2 h3
    simp only [size, capacity, Pointer.diff, narrow_cast_size_t, if_true] at h
    simp [construct_at_end, invariant, Pointer.le, Pointer.add, size, capacity, Pointer.diff,
      narrow_cast_size_t]
    omega

theorem size_eq_capacity_iff (v : raw_bump_vector T) (hinv : v.invariant) :
    v.capacity_end_ = v.data_end_ ↔ v.size = v.capacity := by
  rcases invariant_cases v hinv with ⟨h1, h2, h3⟩ | ⟨b, o, s, c, hsc, h1, h2, h3⟩
  · simp [size, capacity, h1, h2, h3]
  · simp [size, capacity, h1, h2, h3, Pointer.diff, narrow_cast_size_t]
    omega

theorem size_le_capacity (v : raw_bump_vector T) (hinv : v.invariant) : v.size ≤ v.capacity := by
  rcases invariant_cases v hinv with ⟨h1, h2, h3⟩ | ⟨b, o, s, c, hsc, h1, h2, h3⟩
  · simp [size, capacity, h1, h2, h3]
  · simp [size, capacity, h1, h2, h3, Pointer.diff, narrow_cast_size_t]
    omega

theorem emplace_back_pointers [element_layout T] (answer : grow_policy T)
    (v : raw_bump_vector T) (x : T) (hinv : v.invariant) :
    (emplace_back answer v x).invariant ∧ (emplace_back answer v x).size = v.size + 1 ∧
    (emplace_back answer v x).capacity =
      if v.size = v.capacity then max (max 4 (v.capacity + 1)) (v.capacity * 2)
      else v.capacity := by
  have hle := size_le_capacity v hinv
  unfold emplace_back
  by_cases hc : v.capacity_end_ = v.data_end_
  · have hsc := (size_eq_capacity_iff v hinv).mp hc
    simp only [hc, if_true, hsc]
    unfold reserve_grow_by_at_least
    simp only [minimum_capacity]
    have hn : v.capacity < max (max 4 (v.capacity + 1)) (v.capacity * 2) := by omega
    obtain ⟨g1, g2, g3⟩ := reserve_grow_pointers answer v _ hinv hn
    obtain ⟨c1, c2, c3⟩ := construct_at_end_pointers (reserve_grow answer v
      (max (max 4 (v.capacity + 1)) (v.capacity * 2))) x g1 (by rw [g2, g3, hsc]; exact hn)
    exact ⟨c1, by rw [c2, g2, hsc], by rw [c3, g3]⟩
  · have hsc : v.size ≠ v.capacity := fun h => hc ((size_eq_capacity_iff v hinv).mpr h)
    simp only [hc, if_false, hsc]
    exact construct_at_end_pointers v x hinv (by omega)

end raw_bump_vector

end quick_lint_js

/-! ## Lemmas on the memory model -/

namespace quick_lint_js

variable {T : Type}

theorem uninitialized_move_loop_spec (n : Nat) : ∀ (a : bump_allocator T) (b o nb o2 : Nat), b ≠ nb →
    (uninitialized_move_loop a n (Pointer.addr b o) (Pointer.addr nb o2)).2 = Pointer.addr nb (o2 + n) ∧
    (uninitialized_move_loop a n (Pointer.addr b o) (Pointer.addr nb o2)).1.blocks = a.blocks ∧
    (uninitialized_move_loop a n (Pointer.addr b o) (Pointer.addr nb o2)).1.calls = a.calls ∧
    ∀ b2 o3, (uninitialized_move_loop a n (Pointer.addr b o) (Pointer.addr nb o2)).1.memory b2 o3 =
      if b2 = nb ∧ o2 ≤ o3 ∧ o3 < o2 + n then a.memory b (o + (o3 - o2)) else a.memory b2 o3 := by
  induction n with
  | zero =>
    intro a b o nb o2 _
    simp only [uninitialized_move_loop, Nat.add_zero, true_and]
    intro b2 o3
    rw [if_neg]
    omega
  | succ n ih =>
    intro a b o nb o2 hne
    obtain ⟨h1, h2, h3, h4⟩ := ih (a.write (Pointer.addr nb o2) (a.load (Pointer.addr b o))) b (o + 1) nb (o2 + 1) hne
    simp only [uninitialized_move_loop, Pointer.add]
    refine ⟨by rw [h1]; congr 1; omega, by rw [h2]; rfl, by rw [h3]; rfl, ?_⟩
    intro b2 o3
    rw [h4]
    simp only [bump_allocator.write, bump_allocator.load]
    by_cases hb : b2 = nb
    · subst hb
      by_cases ho : o3 = o2
      · subst ho
        simp [hne]
      · by_cases hr : o2 + 1 ≤ o3 ∧ o3 < o2 + 1 + n
        · have hr2 : o2 ≤ o3 ∧ o3 < o2 + (n + 1) := by omega
          have e : o + 1 + (o3 - (o2 + 1)) = o + (o3 - o2) := by omega
          simp [hr, hr2, hne, e]
        · have hr2 : ¬ (o2 ≤ o3 ∧ o3 < o2 + (n + 1)) := by omega
          simp [hr, hr2, ho]
    · simp [hb]

namespace raw_bump_vector

theorem elements_eq_of (v w : raw_bump_vector T) (hs : w.size = v.size)
    (h : ∀ i, i < v.size → w.allocator_.load (w.data_.add i) = v.allocator_.load (v.data_.add i)) :
    w.elements = v.elements := by
  unfold elements data
  rw [hs]
  apply List.map_congr_left
  intro i hi
  exact h i (List.mem_range.mp hi)

theorem reserve_grow_spec [element_layout T] (answer : grow_policy T) (v : raw_bump_vector T)
    (n : Nat) (hw : v.well_formed) (hn : v.capacity < n) :
    (reserve_grow answer v n).well_formed ∧ (reserve_grow answer v n).size = v.size ∧
    (reserve_grow answer v n).capacity = n ∧ (reserve_grow answer v n).elements = v.elements := by
  obtain ⟨hinv, hown⟩ := hw
  rcases invariant_cases v hinv with ⟨h1, h2, h3⟩ | ⟨b, o, s, c, hsc, h1, h2, h3⟩
  · rcases v with ⟨d, e, ce, a⟩
    simp only at h1 h2 h3
    subst h1 h2 h3
    refine ⟨?_, ?_, ?_, ?_⟩
    · simp [well_formed, invariant, owns_storage, reserve_grow, Pointer.le, Pointer.add,
        bump_allocator.allocate_uninitialized_array, capacity, Pointer.diff, narrow_cast_size_t]
    · simp [reserve_grow, size, Pointer.diff, bump_allocator.allocate_uninitialized_array,
        narrow_cast_size_t]
    · simp [reserve_grow, capacity, Pointer.diff, Pointer.add,
        bump_allocator.allocate_uninitialized_array, narrow_cast_size_t]
    · apply elements_eq_of
      · simp [reserve_grow, size, Pointer.diff, bump_allocator.allocate_uninitialized_array,
          narrow_cast_size_t]
      · intro i hi
        simp [size, Pointer.diff, narrow_cast_size_t] at hi
  · rcases v with ⟨d, e, ce, a⟩
    simp only at h1 h2 h3
    subst h1 h2 h3
    have hcap : capacity (⟨Pointer.addr b o, Pointer.addr b (o + s), Pointer.addr b (o + c), a⟩ :
        raw_bump_vector T) = c := by
      simp [capacity, Pointer.diff, narrow_cast_size_t]
    have hsize : size (⟨Pointer.addr b o, Pointer.addr b (o + s), Pointer.addr b (o + c), a⟩ :
        raw_bump_vector T) = s := by
      simp [size, Pointer.diff, narrow_cast_size_t]
    rw [hcap] at hn
    simp only [owns_storage, hcap] at hown
    have hb : b < a.blocks.length := by
      by_contra hlt
      have : a.blocks[b]? = none := List.getElem?_eq_none (by omega)
      simp [this] at hown
    have hbne : b ≠ a.blocks.length := by omega
    cases hg : answer a (Pointer.addr b o) c n
    · obtain ⟨m1, m2, m3, m4⟩ := uninitialized_move_loop_spec s
        (bump_allocator.allocate_uninitialized_array
          (bump_allocator.try_grow_array_in_place answer a (Pointer.addr b o) c n).2 n).2
        b o a.blocks.length 0 hbne
      have hr : reserve_grow answer (⟨Pointer.addr b o, Pointer.addr b (o + s),
          Pointer.addr b (o + c), a⟩ : raw_bump_vector T) n =
          ⟨Pointer.addr a.blocks.length 0, Pointer.addr a.blocks.length (0 + s),
            Pointer.addr a.blocks.length (0 + n),
            bump_allocator.deallocate (uninitialized_move_loop
              (bump_allocator.allocate_uninitialized_array
                (bump_allocator.try_grow_array_in_place answer a (Pointer.addr b o) c n).2 n).2
              s (Pointer.addr b o) (Pointer.addr a.blocks.length 0)).1 (Pointer.addr b o)
              (s * element_layout.sizeof T) (element_layout.alignof T)⟩ := by
        simp [reserve_grow, hcap, hg, bump_allocator.try_grow_array_in_place, clear, destroy,
          uninitialized_move, Pointer.diff, narrow_cast_size_t, Pointer.add,
          bump_allocator.allocate_uninitialized_array] at m1 ⊢
        exact m1
      rw [hr]
      refine ⟨?_, ?_, ?_, ?_⟩
      · simp only [well_formed, invariant, owns_storage, Pointer.le, capacity, Pointer.diff,
          narrow_cast_size_t, bump_allocator.deallocate, m2]
        simp [bump_allocator.allocate_uninitialized_array,
          bump_allocator.try_grow_array_in_place, hg]
        omega
      · simp [size, Pointer.diff, narrow_cast_size_t]
      · simp [capacity, Pointer.diff, narrow_cast_size_t]
      · apply elements_eq_of
        · simp [size, Pointer.diff, narrow_cast_size_t]
        · intro i hi
          rw [hsize] at hi
          have hne2 : a.blocks.length ≠ b := fun h => hbne h.symm
          simp only [bump_allocator.load, Pointer.add, bump_allocator.deallocate, m4, hne2,
            if_false]
          simp [hi, hbne, bump_allocator.allocate_uninitialized_array,
            bump_allocator.try_grow_array_in_place, hg]
    · have hr : reserve_grow answer (⟨Pointer.addr b o, Pointer.addr b (o + s),
          Pointer.addr b (o + c), a⟩ : raw_bump_vector T) n =
          ⟨Pointer.addr b o, Pointer.addr b (o + s), Pointer.addr b (o + n),
            (bump_allocator.try_grow_array_in_place answer a (Pointer.addr b o) c n).2⟩ := by
        simp [reserve_grow, hcap, hg, bump_allocator.try_grow_array_in_place, Pointer.add]
      rw [hr]
      refine ⟨?_, ?_, ?_, ?_⟩
      · simp [well_formed, invariant, owns_storage, Pointer.le, capacity, Pointer.diff,
          narrow_cast_size_t, bump_allocator.try_grow_array_in_place, hg, hb]
        omega
      · simp [size, Pointer.diff, narrow_cast_size_t]
      · simp [capacity, Pointer.diff, narrow_cast_size_t]
      · apply elements_eq_of
        · simp [size, Pointer.diff, narrow_cast_size_t]
        · intro i _
          simp [bump_allocator.load, Pointer.add, bump_allocator.try_grow_array_in_place]

theorem construct_at_end_spec (v : raw_bump_vector T) (x : T) (hw : v.well_formed)
    (h : v.size < v.capacity) :
    (construct_at_end v x).well_formed ∧ (construct_at_end v x).size = v.size + 1 ∧
    (construct_at_end v x).capacity = v.capacity ∧
    (construct_at_end v x).elements = v.elements ++ [some x] := by
  obtain ⟨hinv, hown⟩ := hw
  rcases invariant_cases v hinv with ⟨h1, h2, h3⟩ | ⟨b, o, s, c, hsc, h1, h2, h3⟩
  · rcases v with ⟨d, e, ce, a⟩
    simp only at h1 h2 h3
    subst h1 h2 h3
    simp [size, capacity, Pointer.diff, narrow_cast_size_t] at h
  · rcases v with ⟨d, e, ce, a⟩
    simp only at h1 h2 h3
    subst h1 h2 h3
    simp only [size, capacity, Pointer.diff, narrow_cast_size_t, if_true] at h
    have hlt : s < c := by omega
    have hsz : size (construct_at_end (⟨Pointer.addr b o, Pointer.addr b (o + s),
        Pointer.addr b (o + c), a⟩ : raw_bump_vector T) x) = s + 1 := by
      simp [construct_at_end, size, Pointer.diff, narrow_cast_size_t, Pointer.add]
      omega
    have hsz0 : size (⟨Pointer.addr b o, Pointer.addr b (o + s),
        Pointer.addr b (o + c), a⟩ : raw_bump_vector T) = s := by
      simp [size, Pointer.diff, narrow_cast_size_t]
    refine ⟨?_, ?_, ?_, ?_⟩
    · simp only [well_formed, invariant, owns_storage, capacity] at hown ⊢
      simp [construct_at_end, Pointer.le, Pointer.add, bump_allocator.write] at hown ⊢
      exact ⟨by omega, hown⟩
    · rw [hsz, hsz0]
    · simp [construct_at_end, capacity, Pointer.add]
    · unfold elements
      rw [hsz, hsz0, List.range_succ, List.map_append]
      congr 1
      · apply List.map_congr_left
        intro i hi
        have hi2 : i < s := List.mem_range.mp hi
        have : ¬ (o + i = o + s) := by omega
        simp [construct_at_end, data, bump_allocator.load, bump_allocator.write, Pointer.add, this]
      · simp [construct_at_end, data, bump_allocator.load, bump_allocator.write, Pointer.add]

theorem emplace_back_spec [element_layout T] (answer : grow_policy T) (v : raw_bump_vector T)
    (x : T) (hw : v.well_formed) :
    (emplace_back answer v x).well_formed ∧ (emplace_back answer v x).size = v.size + 1 ∧
    (emplace_back answer v x).elements = v.elements ++ [some x] ∧
    (emplace_back answer v x).capacity =
      if v.size = v.capacity then max (max 4 (v.capacity + 1)) (v.capacity * 2) else v.capacity := by
  have hle := size_le_capacity v hw.1
  unfold emplace_back
  by_cases hc : v.capacity_end_ = v.data_end_
  · have hsc := (size_eq_capacity_iff v hw.1).mp hc
    simp only [hc, if_true, hsc]
    unfold reserve_grow_by_at_least
    simp only [minimum_capacity]
    have hn : v.capacity < max (max 4 (v.capacity + 1)) (v.capacity * 2) := by omega
    obtain ⟨g1, g2, g3, g4⟩ := reserve_grow_spec answer v _ hw hn
    obtain ⟨c1, c2, c3, c4⟩ := construct_at_end_spec (reserve_grow answer v
      (max (max 4 (v.capacity + 1)) (v.capacity * 2))) x g1 (by rw [g2, g3, hsc]; exact hn)
    exact ⟨c1, by rw [c2, g2, hsc], by rw [c4, g4], by rw [c3, g3]⟩
  · have hsc : v.size ≠ v.capacity := fun h => hc ((size_eq_capacity_iff v hw.1).mpr h)
    simp only [hc, if_false, hsc]
    obtain ⟨c1, c2, c3, c4⟩ := construct_at_end_spec v x hw (by omega)
    exact ⟨c1, c2, c4, c3⟩

end raw_bump_vector

end quick_lint_js

/-! ## The bump-backed array: appending -/

namespace quick_lint_js

namespace raw_bump_vector

variable {T : Type}

theorem foldl_emplace_back_spec [element_layout T] (answer : grow_policy T) (xs : List T) :
    ∀ v : raw_bump_vector T, v.well_formed →
      (xs.foldl (emplace_back answer) v).well_formed ∧
      (xs.foldl (emplace_back answer) v).size = v.size + xs.length ∧
      (xs.foldl (emplace_back answer) v).elements = v.elements ++ xs.map some := by
  induction xs with
  | nil => intro v hw; simp [hw]
  | cons x xs ih =>
    intro v hw
    obtain ⟨e1, e2, e3, _⟩ := emplace_back_spec answer v x hw
    obtain ⟨f1, f2, f3⟩ := ih (emplace_back answer v x) e1
    simp only [List.foldl_cons, List.length_cons, List.map_cons]
    refine ⟨f1, by rw [f2, e2]; omega, by rw [f3, e3]; simp⟩

theorem create_well_formed (a : bump_allocator T) : (create a).well_formed := by
  simp [create, well_formed, invariant, owns_storage, Pointer.le]

theorem create_size_capacity (a : bump_allocator T) :
    (create a).size = 0 ∧ (create a).capacity = 0 ∧ (create a).elements = [] := by
  simp [create, size, capacity, elements, Pointer.diff, narrow_cast_size_t]

theorem emplace_back_growth_state [element_layout T] (answer : grow_policy T)
    (v : raw_bump_vector T) (x : T) (hw : v.well_formed) (hg : v.growth_state) :
    (emplace_back answer v x).growth_state := by
  obtain ⟨_, e2, _, e4⟩ := emplace_back_spec answer v x hw
  rcases hg with ⟨h1, h2⟩ | ⟨j, h1, h2, h3, h4⟩
  · right
    refine ⟨0, ?_, ?_, ?_, Or.inl rfl⟩
    · rw [e4, h1, h2]; simp
    · omega
    · rw [e4, e2, h1, h2]; simp
  · right
    by_cases hc : v.size = v.capacity
    · rw [if_pos hc] at e4
      have hp : 4 * 2 ^ (j + 1) = 2 * (4 * 2 ^ j) := by rw [pow_succ]; ring
      have hpos : 0 < 2 ^ j := Nat.two_pow_pos j
      refine ⟨j + 1, ?_, by omega, ?_, Or.inr ?_⟩
      · rw [e4, hp, h1]; omega
      · rw [e4, e2]; omega
      · rw [e2]; simp only [Nat.add_sub_cancel]; omega
    · rw [if_neg hc] at e4
      refine ⟨j, by rw [e4, h1], by omega, by rw [e4, e2]; omega, ?_⟩
      rcases h4 with h4 | h4
      · exact Or.inl h4
      · exact Or.inr (by rw [e2]; omega)

theorem foldl_growth_state [element_layout T] (answer : grow_policy T) (xs : List T) :
    ∀ v : raw_bump_vector T, v.well_formed → v.growth_state →
      (xs.foldl (emplace_back answer) v).growth_state := by
  induction xs with
  | nil => intro v _ hg; exact hg
  | cons x xs ih =>
    intro v hw hg
    exact ih _ (emplace_back_spec answer v x hw).1 (emplace_back_growth_state answer v x hw hg)

end raw_bump_vector

/-- C1: starting from a freshly constructed vector (over any allocator state) and
appending `x1, ..., xN` with `emplace_back`, whatever the allocator answers to
each in-place-growth request, `size()` is `N` and the cells `data()[0 .. N)` hold
exactly `x1, ..., xN` in insertion order. -/
theorem emplace_back_sequence {T : Type} [element_layout T] (answer : grow_policy T)
    (a : bump_allocator T) (xs : List T) :
    (xs.foldl (raw_bump_vector.emplace_back answer) (raw_bump_vector.create a)).size
      = xs.length ∧
    (xs.foldl (raw_bump_vector.emplace_back answer) (raw_bump_vector.create a)).elements
      = xs.map some := by
  obtain ⟨_, h2, h3⟩ := raw_bump_vector.foldl_emplace_back_spec answer xs
    (raw_bump_vector.create a) (raw_bump_vector.create_well_formed a)
  obtain ⟨c1, _, c3⟩ := raw_bump_vector.create_size_capacity a
  rw [c1] at h2
  rw [c3] at h3
  exact ⟨by simpa using h2, by simpa using h3⟩

/-- C2: when the pointer invariant holds and `size() == capacity() == c`,
`emplace_back` grows the storage to capacity `max(4, max(c + 1, c * 2))` and the
size becomes `c + 1`. -/
theorem emplace_back_full_capacity {T : Type} [element_layout T] (answer : grow_policy T)
    (v : raw_bump_vector T) (x : T) (c : Nat) (hinv : v.invariant)
    (hs : v.size = c) (hc : v.capacity = c) :
    (raw_bump_vector.emplace_back answer v x).capacity = max 4 (max (c + 1) (c * 2)) ∧
    (raw_bump_vector.emplace_back answer v x).size = c + 1 := by
  obtain ⟨_, h2, h3⟩ := raw_bump_vector.emplace_back_pointers answer v x hinv
  rw [hs, hc, if_pos rfl] at h3
  rw [hs] at h2
  exact ⟨by rw [h3]; omega, h2⟩


/-- C2 at a vector holding 1, 2, 3, 4 in a storage of capacity 4: the fifth
element makes the capacity 8. -/
theorem emplace_back_full_capacity_witness :
    four_ints.invariant ∧ four_ints.size = 4 ∧ four_ints.capacity = 4 ∧
    (raw_bump_vector.emplace_back (never_policy Int) four_ints 5).capacity
      = max 4 (max (4 + 1) (4 * 2)) ∧
    (raw_bump_vector.emplace_back (never_policy Int) four_ints 5).size = 4 + 1 :=
  ⟨by decide, by decide, by decide,
    emplace_back_full_capacity (never_policy Int) four_ints 5 4 (by decide) (by decide)
      (by decide)⟩

/-- C3: appending one element at a time to a freshly constructed vector, the
capacity is 0 before the first append and, after `k >= 1` appends, the smallest
value of the form `4 * 2 ^ j` that is at least `k` (so 4, 8, 16, 32, ...). -/
theorem capacity_growth_sequence {T : Type} [element_layout T] (answer : grow_policy T)
    (a : bump_allocator T) (xs : List T) :
    (xs.length = 0 →
      (xs.foldl (raw_bump_vector.emplace_back answer) (raw_bump_vector.create a)).capacity
        = 0) ∧
    (1 ≤ xs.length → ∃ j,
      (xs.foldl (raw_bump_vector.emplace_back answer) (raw_bump_vector.create a)).capacity
        = 4 * 2 ^ j ∧
      xs.length ≤ 4 * 2 ^ j ∧ ∀ i, xs.length ≤ 4 * 2 ^ i → 4 * 2 ^ j ≤ 4 * 2 ^ i) := by
  obtain ⟨c1, c2, _⟩ := raw_bump_vector.create_size_capacity a
  obtain ⟨_, h2, _⟩ := raw_bump_vector.foldl_emplace_back_spec answer xs
    (raw_bump_vector.create a) (raw_bump_vector.create_well_formed a)
  have hg := raw_bump_vector.foldl_growth_state answer xs (raw_bump_vector.create a)
    (raw_bump_vector.create_well_formed a) (Or.inl ⟨c1, c2⟩)
  rw [c1, Nat.zero_add] at h2
  rw [raw_bump_vector.growth_state, h2] at hg
  constructor
  · intro h0
    rcases hg with ⟨_, g2⟩ | ⟨j, _, g2, _, _⟩
    · exact g2
    · omega
  · intro h1
    rcases hg with ⟨g1, _⟩ | ⟨j, g1, _, g3, g4⟩
    · omega
    · refine ⟨j, g1, by rw [← g1]; exact g3, ?_⟩
      intro i hi
      have hji : j ≤ i := by
        by_contra hlt
        rcases g4 with g4 | g4
        · omega
        · have hp : 2 ^ i ≤ 2 ^ (j - 1) := Nat.pow_le_pow_right (by decide) (by omega)
          omega
      have hp : 2 ^ j ≤ 2 ^ i := Nat.pow_le_pow_right (by decide) hji
      omega

/-- C3 at five appends: the capacity is `4 * 2 ^ 1 = 8`. -/
theorem capacity_growth_sequence_witness :
    ∃ j, ([1, 2, 3, 4, 5].foldl (raw_bump_vector.emplace_back (alternating_policy Int))
        (raw_bump_vector.create (fresh_allocator Int))).capacity = 4 * 2 ^ j ∧
      [1, 2, 3, 4, 5].length ≤ 4 * 2 ^ j ∧
      ∀ i, [1, 2, 3, 4, 5].length ≤ 4 * 2 ^ i → 4 * 2 ^ j ≤ 4 * 2 ^ i :=
  (capacity_growth_sequence (alternating_policy Int) (fresh_allocator Int) [1, 2, 3, 4, 5]).2
    (by decide)

/-- C4: when `size() < capacity()`, `emplace_back` leaves `capacity()` and the
data pointer unchanged and makes no call to the allocator (its call history and
its table of allocations are unchanged). -/
theorem emplace_back_spare_capacity {T : Type} [element_layout T] (answer : grow_policy T)
    (v : raw_bump_vector T) (x : T) (h : v.size < v.capacity) :
    (raw_bump_vector.emplace_back answer v x).capacity = v.capacity ∧
    (raw_bump_vector.emplace_back answer v x).data = v.data ∧
    (raw_bump_vector.emplace_back answer v x).allocator_.calls = v.allocator_.calls ∧
    (raw_bump_vector.emplace_back answer v x).allocator_.blocks = v.allocator_.blocks := by
  have hne : v.capacity_end_ ≠ v.data_end_ := by
    intro he
    simp [raw_bump_vector.size, raw_bump_vector.capacity, he] at h
  rcases v with ⟨d, e, c, a⟩
  simp only at hne
  cases e <;> simp [raw_bump_vector.emplace_back, raw_bump_vector.construct_at_end, hne,
    raw_bump_vector.capacity, raw_bump_vector.data, bump_allocator.write]

/-- C4 at a vector holding 10, 20, 30 in a storage of capacity 4. -/
theorem emplace_back_spare_capacity_witness :
    three_ints.size < three_ints.capacity ∧
    (raw_bump_vector.emplace_back (alternating_policy Int) three_ints 40).capacity
      = three_ints.capacity ∧
    (raw_bump_vector.emplace_back (alternating_policy Int) three_ints 40).data
      = three_ints.data ∧
    (raw_bump_vector.emplace_back (alternating_policy Int) three_ints 40).allocator_.calls
      = three_ints.allocator_.calls ∧
    (raw_bump_vector.emplace_back (alternating_policy Int) three_ints 40).allocator_.blocks
      = three_ints.allocator_.blocks :=
  ⟨by decide, emplace_back_spare_capacity (alternating_policy Int) three_ints 40 (by decide)⟩

end quick_lint_js

/-! ## The bump-backed array: reserving and clearing -/

namespace quick_lint_js

/-- C5: for a vector in a valid state, after `reserve(n)` the capacity is at
least `n` and the size and the element sequence are unchanged; when
`capacity() >= n` already holds, `reserve(n)` changes nothing at all (pointers,
capacity and allocator state). -/
theorem reserve_spec {T : Type} [element_layout T] (answer : grow_policy T)
    (v : raw_bump_vector T) (n : Nat) (hw : v.well_formed) :
    n ≤ (raw_bump_vector.reserve answer v n).capacity ∧
    (raw_bump_vector.reserve answer v n).size = v.size ∧
    (raw_bump_vector.reserve answer v n).elements = v.elements ∧
    (n ≤ v.capacity → raw_bump_vector.reserve answer v n = v) := by
  unfold raw_bump_vector.reserve
  by_cases h : v.capacity < n
  · obtain ⟨_, g2, g3, g4⟩ := raw_bump_vector.reserve_grow_spec answer v n hw h
    rw [if_pos h]
    exact ⟨by rw [g3], g2, g4, fun h2 => absurd h (by omega)⟩
  · rw [if_neg h]
    exact ⟨by omega, rfl, rfl, fun _ => rfl⟩

/-- C5 at a vector holding 10, 20, 30 with capacity 4: `reserve(9)` grows it and
`reserve(4)` would not. -/
theorem reserve_spec_witness :
    three_ints.well_formed ∧
    9 ≤ (raw_bump_vector.reserve (alternating_policy Int) three_ints 9).capacity ∧
    (raw_bump_vector.reserve (alternating_policy Int) three_ints 9).size = three_ints.size ∧
    (raw_bump_vector.reserve (alternating_policy Int) three_ints 9).elements
      = three_ints.elements ∧
    (9 ≤ three_ints.capacity →
      raw_bump_vector.reserve (alternating_policy Int) three_ints 9 = three_ints) :=
  ⟨by decide, reserve_spec (alternating_policy Int) three_ints 9 (by decide)⟩

/-- C6: for a vector in a valid state and `new_size > capacity()`,
`reserve_grow(new_size)` leaves `size()` and the element sequence unchanged and
makes the capacity `new_size`, so two allocators that answer the in-place-growth
request differently yield the same observable container; and when the request is
made and succeeds, the data pointer and the memory are unchanged and the only
call the allocator receives is that request (no allocation, no deallocation). -/
theorem reserve_grow_in_place_or_moved {T : Type} [element_layout T]
    (answer answer2 : grow_policy T) (v : raw_bump_vector T) (new_size : Nat)
    (hw : v.well_formed) (hn : v.capacity < new_size) :
    ((raw_bump_vector.reserve_grow answer v new_size).size = v.size ∧
      (raw_bump_vector.reserve_grow answer v new_size).elements = v.elements ∧
      (raw_bump_vector.reserve_grow answer v new_size).capacity = new_size) ∧
    ((raw_bump_vector.reserve_grow answer v new_size).size
        = (raw_bump_vector.reserve_grow answer2 v new_size).size ∧
      (raw_bump_vector.reserve_grow answer v new_size).elements
        = (raw_bump_vector.reserve_grow answer2 v new_size).elements ∧
      (raw_bump_vector.reserve_grow answer v new_size).capacity
        = (raw_bump_vector.reserve_grow answer2 v new_size).capacity) ∧
    (v.data_ ≠ Pointer.null → answer v.allocator_ v.data_ v.capacity new_size = true →
      (raw_bump_vector.reserve_grow answer v new_size).data = v.data ∧
      (raw_bump_vector.reserve_grow answer v new_size).allocator_.memory
        = v.allocator_.memory ∧
      (raw_bump_vector.reserve_grow answer v new_size).allocator_.calls = v.allocator_.calls ++
        [allocator_call.try_grow_array_in_place v.data_ v.capacity new_size true]) := by
  obtain ⟨_, g2, g3, g4⟩ := raw_bump_vector.reserve_grow_spec answer v new_size hw hn
  obtain ⟨_, k2, k3, k4⟩ := raw_bump_vector.reserve_grow_spec answer2 v new_size hw hn
  refine ⟨⟨g2, g4, g3⟩, ⟨by rw [g2, k2], by rw [g4, k4], by rw [g3, k3]⟩, ?_⟩
  intro hd hg
  simp [raw_bump_vector.reserve_grow, hd, hg, bump_allocator.try_grow_array_in_place,
    raw_bump_vector.data]

/-- C6 at a vector holding 1, 2, 3, 4 with capacity 4, grown to 8 by an
allocator that extends it in place and by one that does not. -/
theorem reserve_grow_in_place_or_moved_witness :
    four_ints.well_formed ∧ four_ints.capacity < 8 ∧
    (raw_bump_vector.reserve_grow (alternating_policy Int) four_ints 8).elements
      = (raw_bump_vector.reserve_grow (never_policy Int) four_ints 8).elements ∧
    (raw_bump_vector.reserve_grow (alternating_policy Int) four_ints 8).data = four_ints.data :=
  ⟨by decide, by decide,
    (reserve_grow_in_place_or_moved (alternating_policy Int) (never_policy Int) four_ints 8
      (by decide) (by decide)).2.1.2.1,
    ((reserve_grow_in_place_or_moved (alternating_policy Int) (never_policy Int) four_ints 8
      (by decide) (by decide)).2.2 (by decide) (by decide)).1⟩

/-- C7: after `clear()` a vector whose pointers satisfy the invariant is in the
state of a freshly constructed one (size 0, capacity 0, empty, null data
pointer); `clear()` on an unallocated vector changes nothing and calls nothing,
so a second `clear()` has no effect. -/
theorem clear_resets {T : Type} [element_layout T] (v : raw_bump_vector T)
    (hinv : v.invariant) :
    raw_bump_vector.clear v = raw_bump_vector.create (raw_bump_vector.clear v).allocator_ ∧
    (raw_bump_vector.clear v).size = 0 ∧ (raw_bump_vector.clear v).capacity = 0 ∧
    (raw_bump_vector.clear v).empty = true ∧ (raw_bump_vector.clear v).data = Pointer.null ∧
    (v.data_ = Pointer.null → raw_bump_vector.clear v = v) ∧
    raw_bump_vector.clear (raw_bump_vector.clear v) = raw_bump_vector.clear v := by
  have h1 : raw_bump_vector.clear v
      = raw_bump_vector.create (raw_bump_vector.clear v).allocator_ := by
    rcases raw_bump_vector.invariant_cases v hinv with ⟨h1, h2, h3⟩ | ⟨b, o, s, c, _, h1, h2, h3⟩
    · rcases v with ⟨d, e, ce, a⟩
      simp only at h1 h2 h3
      subst h1 h2 h3
      simp [raw_bump_vector.clear, raw_bump_vector.create]
    · simp [raw_bump_vector.clear, raw_bump_vector.create, h1]
  have h2 : ∀ w : raw_bump_vector T, w.data_ = Pointer.null → raw_bump_vector.clear w = w := by
    intro w hw
    simp [raw_bump_vector.clear, hw]
  refine ⟨h1, ?_, ?_, ?_, ?_, h2 v, ?_⟩
  · rw [h1]; simp [raw_bump_vector.create, raw_bump_vector.size, Pointer.diff, narrow_cast_size_t]
  · rw [h1]
    simp [raw_bump_vector.create, raw_bump_vector.capacity, Pointer.diff, narrow_cast_size_t]
  · rw [h1]; simp [raw_bump_vector.create, raw_bump_vector.empty]
  · rw [h1]; simp [raw_bump_vector.create, raw_bump_vector.data]
  · apply h2
    rw [h1]; simp [raw_bump_vector.create]

/-- C7 at a vector holding 10, 20, 30. -/
theorem clear_resets_witness :
    three_ints.invariant ∧
    (raw_bump_vector.clear three_ints).size = 0 ∧
    (raw_bump_vector.clear three_ints).capacity = 0 ∧
    (raw_bump_vector.clear three_ints).empty = true ∧
    (raw_bump_vector.clear three_ints).data = Pointer.null :=
  ⟨by decide, (clear_resets three_ints (by decide)).2.1, (clear_resets three_ints (by decide)).2.2.1,
    (clear_resets three_ints (by decide)).2.2.2.1, (clear_resets three_ints (by decide)).2.2.2.2.1⟩

/-- C8: the invariant `data <= data_end <= capacity_end` holds for a freshly
constructed vector and is preserved by `reserve`, by `reserve_grow` (when
`new_size > capacity()`), by `emplace_back` and by `clear`; it says that
`size() <= capacity()`. -/
theorem invariant_preserved {T : Type} [element_layout T] (answer : grow_policy T)
    (a : bump_allocator T) (v : raw_bump_vector T) (n : Nat) (x : T) (hinv : v.invariant) :
    (raw_bump_vector.create a).invariant ∧
    (raw_bump_vector.reserve answer v n).invariant ∧
    (v.capacity < n → (raw_bump_vector.reserve_grow answer v n).invariant) ∧
    (raw_bump_vector.emplace_back answer v x).invariant ∧
    (raw_bump_vector.clear v).invariant ∧
    v.size ≤ v.capacity := by
  have hg : v.capacity < n → (raw_bump_vector.reserve_grow answer v n).invariant :=
    fun h => (raw_bump_vector.reserve_grow_pointers answer v n hinv h).1
  refine ⟨(raw_bump_vector.create_well_formed a).1, ?_, hg,
    (raw_bump_vector.emplace_back_pointers answer v x hinv).1, ?_,
    raw_bump_vector.size_le_capacity v hinv⟩
  · unfold raw_bump_vector.reserve
    by_cases h : v.capacity < n
    · simp only [h, if_true]; exact hg h
    · simp only [h, if_false]; exact hinv
  · unfold raw_bump_vector.clear
    by_cases h : v.data_ = Pointer.null
    · simp [h, hinv]
    · simp [h, raw_bump_vector.invariant, Pointer.le]

/-- C8 at a vector holding 1, 2, 3, 4 with capacity 4. -/
theorem invariant_preserved_witness :
    four_ints.invariant ∧
    (raw_bump_vector.reserve (never_policy Int) four_ints 6).invariant ∧
    (four_ints.capacity < 6 →
      (raw_bump_vector.reserve_grow (never_policy Int) four_ints 6).invariant) ∧
    (raw_bump_vector.emplace_back (never_policy Int) four_ints 5).invariant ∧
    (raw_bump_vector.clear four_ints).invariant :=
  ⟨by decide,
    (invariant_preserved (never_policy Int) (fresh_allocator Int) four_ints 6 5 (by decide)).2.1,
    (invariant_preserved (never_policy Int) (fresh_allocator Int) four_ints 6 5
      (by decide)).2.2.1,
    (invariant_preserved (never_policy Int) (fresh_allocator Int) four_ints 6 5
      (by decide)).2.2.2.1,
    (invariant_preserved (never_policy Int) (fresh_allocator Int) four_ints 6 5
      (by decide)).2.2.2.2.1⟩

end quick_lint_js

/-! ## The source locator -/

namespace quick_lint_js

theorem wrap_int_of_fits (x : Int) (h1 : -2147483648 ≤ x) (h2 : x ≤ 2147483647) :
    wrap_int x = x := by
  unfold wrap_int
  omega

theorem wrap_int_wrap_int_add (a b : Int) : wrap_int (wrap_int a + b) = wrap_int (a + b) := by
  unfold wrap_int
  omega

theorem wrap_int_add_wrap_int (a b : Int) : wrap_int (b + wrap_int a) = wrap_int (b + a) := by
  unfold wrap_int
  omega

theorem wrap_int_idempotent (a : Int) : wrap_int (wrap_int a) = wrap_int a := by
  unfold wrap_int
  omega

theorem count_take_replicate (a : Nat) (m n : Nat) (h : m ≤ n) :
    ((List.replicate n a).take m).count a = m := by
  rw [List.take_replicate, Nat.min_eq_left h, List.count_replicate_self]

theorem count_take_replicate_other (a : Nat) (m n : Nat) (h : a ≠ line_feed) :
    ((List.replicate n a).take m).count line_feed = 0 := by
  rw [List.take_replicate]
  apply List.count_eq_zero.mpr
  intro hmem
  exact h (List.eq_of_mem_replicate hmem).symm

namespace locator

theorem position_loop_count (input : List Nat) (steps : Nat) :
    ∀ (c : Nat) (n : Int) (last : Option Nat), wrap_int n = n →
      (position_loop input steps c n last).1
        = wrap_int (n + (((input.drop c).take steps).count line_feed : Nat)) := by
  induction steps with
  | zero => intro c n last hn; simp [position_loop, hn]
  | succ k ih =>
    intro c n last hn
    unfold position_loop
    by_cases hlt : c < input.length
    · have hd : input.drop c = input[c] :: input.drop (c + 1) := List.drop_eq_getElem_cons hlt
      have hget : input[c]? = some input[c] := List.getElem?_eq_getElem hlt
      rw [hd, List.take_succ_cons, hget]
      by_cases hx : input[c] = line_feed
      · rw [if_pos (by rw [hx]), ih _ _ _ (wrap_int_idempotent _), hx, List.count_cons_self,
          wrap_int_wrap_int_add]
        congr 1
        push_cast
        ring
      · have hx2 : ¬ (some input[c] = some line_feed) := fun h => hx (Option.some.inj h)
        rw [if_neg hx2, ih _ _ _ hn, List.count_cons_of_ne (fun h => hx h.symm)]
    · have hnone : input[c]? = none := List.getElem?_eq_none (by omega)
      have hd : input.drop c = [] := List.drop_eq_nil_of_le (by omega)
      have hd2 : input.drop (c + 1) = [] := List.drop_eq_nil_of_le (by omega)
      rw [hnone, if_neg (by simp), ih _ _ _ hn, hd, hd2]
      simp

/-- What the loop leaves in `last_line_terminator`: the index of the last line
feed among the bytes it visited, or its initial value when it found none. -/
theorem position_loop_last (input : List Nat) (steps : Nat) :
    ∀ (c : Nat) (n : Int) (last : Option Nat),
      ((∀ j, c ≤ j → j < c + steps → input[j]? ≠ some line_feed) ∧
        (position_loop input steps c n last).2 = last) ∨
      ∃ t, c ≤ t ∧ t < c + steps ∧ input[t]? = some line_feed ∧
        (∀ j, t < j → j < c + steps → input[j]? ≠ some line_feed) ∧
        (position_loop input steps c n last).2 = some t := by
  induction steps with
  | zero =>
    intro c n last
    left
    exact ⟨fun j h1 h2 => absurd h2 (by omega), rfl⟩
  | succ k ih =>
    intro c n last
    unfold position_loop
    by_cases hx : input[c]? = some line_feed
    · rw [if_pos hx]
      right
      rcases ih (c + 1) (wrap_int (n + 1)) (some c) with ⟨h1, h2⟩ | ⟨t, h1, h2, h3, h4, h5⟩
      · refine ⟨c, le_refl c, by omega, hx, ?_, h2⟩
        intro j hj1 hj2
        exact h1 j (by omega) (by omega)
      · exact ⟨t, by omega, by omega, h3, fun j hj1 hj2 => h4 j hj1 (by omega), h5⟩
    · rw [if_neg hx]
      rcases ih (c + 1) n last with ⟨h1, h2⟩ | ⟨t, h1, h2, h3, h4, h5⟩
      · left
        refine ⟨?_, h2⟩
        intro j hj1 hj2
        by_cases hjc : j = c
        · rw [hjc]; exact hx
        · exact h1 j (by omega) (by omega)
      · right
        exact ⟨t, by omega, by omega, h3, fun j hj1 hj2 => h4 j hj1 (by omega), h5⟩

/-- The line number that `position` returns, for every buffer and offset: the
32-bit `int` holding one plus the number of line feeds before the offset. -/
theorem position_line_number_int (input : List Nat) (q : Nat) :
    (position ⟨input⟩ q).line_number
      = wrap_int (1 + (((input.take q).count line_feed : Nat) : Int)) := by
  have h := position_loop_count input q 0 0 none (by decide)
  simp only [List.drop_zero, Int.zero_add] at h
  simp only [position, h, wrap_int_add_wrap_int]

/-- The column number that `position` returns when no line feed precedes the
offset: the 32-bit `int` holding the offset plus one. -/
theorem position_column_number_int (input : List Nat) (q : Nat)
    (hnone : ∀ j, j < q → input[j]? ≠ some line_feed) :
    (position ⟨input⟩ q).column_number = wrap_int ((q : Int) + 1) := by
  have hl := position_loop_last input q 0 0 none
  simp only [Nat.zero_add] at hl
  rcases hl with ⟨_, h2⟩ | ⟨t2, _, h2, h3, _, _⟩
  · simp [position, narrow_cast_int, h2]
  · exact absurd h3 (hnone t2 h2)

end locator

/-- C9, as amended: for every source buffer and every offset `q` with `0 <= q <=
length` such that fewer than 2147483647 line feeds lie among `input[0 .. q)`, the
line number of `position(input + q)` is 1 plus the number of these line feeds;
the byte at `q` itself is not counted. -/
theorem position_line_number (input : List Nat) (q : Nat) (hq : q ≤ input.length)
    (hfit : (input.take q).count line_feed < 2147483647) :
    (locator.position ⟨input⟩ q).line_number = 1 + ((input.take q).count line_feed : Nat) := by
  have _hq := hq
  rw [locator.position_line_number_int]
  exact wrap_int_of_fits _ (by omega) (by omega)

/-- C9 on the text `a\nbb\nccc`: offset 4 points to the second line feed, which
is not counted, so the line is 2. -/
theorem position_line_number_witness :
    4 ≤ sample_source.length ∧ sample_source[4]? = some line_feed ∧
    (sample_source.take 4).count line_feed < 2147483647 ∧
    (locator.position ⟨sample_source⟩ 4).line_number
      = 1 + (((sample_source.take 4).count line_feed : Nat) : Int) ∧
    (locator.position ⟨sample_source⟩ 4).line_number = 2 :=
  ⟨by decide, by decide, by decide,
    position_line_number sample_source 4 (by decide) (by decide), by decide⟩

/-- C9 as stated fails on a buffer of 2147483647 line feeds, at its end: one
plus the number of line feeds does not fit the `int` that counts them, and the
line number is -2147483648. -/
theorem position_line_number_overflows :
    2147483647 ≤ (List.replicate 2147483647 line_feed).length ∧
    (locator.position ⟨List.replicate 2147483647 line_feed⟩ 2147483647).line_number
      = -2147483648 ∧
    (locator.position ⟨List.replicate 2147483647 line_feed⟩ 2147483647).line_number
      ≠ 1 + ((((List.replicate 2147483647 line_feed).take 2147483647).count line_feed : Nat)
          : Int) := by
  have hc := count_take_replicate line_feed 2147483647 2147483647 (le_refl _)
  have hl := locator.position_line_number_int (List.replicate 2147483647 line_feed) 2147483647
  rw [hc] at hl
  have hw : wrap_int (1 + ((2147483647 : Nat) : Int)) = -2147483648 := by decide
  refine ⟨le_of_eq (List.length_replicate _ _).symm, hl.trans hw, ?_⟩
  rw [hc, hl, hw]
  decide

/-- C10, as amended: for every source buffer and every offset `q` within it, the
column number of `position(input + q)` is `q - t` when `t` is the index of the
last line feed strictly before `q` and `q - t <= 2147483647`, and `q + 1` when no
line feed precedes `q` and `q + 1 <= 2147483647`. -/
theorem position_column_number (input : List Nat) (q : Nat) (hq : q ≤ input.length) :
    (∀ t, t < q → input[t]? = some line_feed →
      (∀ j, t < j → j < q → input[j]? ≠ some line_feed) →
      (q : Int) - (t : Int) ≤ 2147483647 →
      (locator.position ⟨input⟩ q).column_number = (q : Int) - (t : Int)) ∧
    ((∀ j, j < q → input[j]? ≠ some line_feed) → (q : Int) + 1 ≤ 2147483647 →
      (locator.position ⟨input⟩ q).column_number = (q : Int) + 1) := by
  have _hq := hq
  have hl := locator.position_loop_last input q 0 0 none
  simp only [Nat.zero_add] at hl
  constructor
  · intro t ht hx hlast hfit
    rcases hl with ⟨h1, _⟩ | ⟨t2, _, h2, h3, h4, h5⟩
    · exact absurd hx (h1 t (Nat.zero_le t) ht)
    · have htt : t2 = t := by
        rcases Nat.lt_trichotomy t2 t with h | h | h
        · exact absurd hx (h4 t h ht)
        · exact h
        · exact absurd h3 (hlast t2 h h2)
      simp only [locator.position, narrow_cast_int, h5, htt]
      exact wrap_int_of_fits _ (by omega) hfit
  · intro hnone hfit
    rw [locator.position_column_number_int input q hnone]
    exact wrap_int_of_fits _ (by omega) hfit

/-- C10 on the text `a\nbb\nccc`: at offset 7 the last line feed before is at
index 4, so the column is 3; at offset 1 no line feed precedes, so the column is
2. -/
theorem position_column_number_witness :
    7 ≤ sample_source.length ∧
    (locator.position ⟨sample_source⟩ 7).column_number = (7 : Int) - (4 : Int) ∧
    (locator.position ⟨sample_source⟩ 1).column_number = (1 : Int) + 1 :=
  ⟨by decide,
    (position_column_number sample_source 7 (by decide)).1 4 (by decide) (by decide)
      (fun j h1 h2 => by interval_cases j <;> decide) (by decide),
    (position_column_number sample_source 1 (by decide)).2
      (fun j h1 => by interval_cases j; decide) (by decide)⟩

/-- C10 as stated fails on a buffer of 2147483647 bytes `a`, at its end: no line
feed precedes the offset, `q + 1` does not fit the `int` column, and the column
number is -2147483648. -/
theorem position_column_number_overflows :
    2147483647 ≤ (List.replicate 2147483647 97).length ∧
    (∀ j, j < 2147483647 → (List.replicate 2147483647 97)[j]? ≠ some line_feed) ∧
    (locator.position ⟨List.replicate 2147483647 97⟩ 2147483647).column_number
      = -2147483648 ∧
    (locator.position ⟨List.replicate 2147483647 97⟩ 2147483647).column_number
      ≠ ((2147483647 : Nat) : Int) + 1 := by
  have hnone : ∀ j, j < 2147483647 →
      (List.replicate 2147483647 97)[j]? ≠ some line_feed := by
    intro j hj
    rw [List.getElem?_replicate_of_lt hj]
    decide
  have hl := locator.position_column_number_int (List.replicate 2147483647 97) 2147483647 hnone
  have hw : wrap_int (((2147483647 : Nat) : Int) + 1) = -2147483648 := by decide
  refine ⟨le_of_eq (List.length_replicate _ _).symm, hnone, hl.trans hw, ?_⟩
  rw [hl, hw]
  decide

end quick_lint_js

/-! ## The source locator: examples, bounds and ranges -/

namespace quick_lint_js

/-- C11: in the text `a\nbb\nccc` the first `c` (offset 5) is at line 3,
column 1, and offset 0 is at line 1, column 1. -/
theorem position_sample_source :
    (locator.position ⟨sample_source⟩ 5).line_number = 3 ∧
    (locator.position ⟨sample_source⟩ 5).column_number = 1 ∧
    sample_source[5]? = some 99 ∧ sample_source[4]? = some line_feed ∧
    (locator.position ⟨sample_source⟩ 0).line_number = 1 ∧
    (locator.position ⟨sample_source⟩ 0).column_number = 1 := by
  decide

/-- C13: for every span inside the source buffer, `range(span).begin()` is
`position(span.begin())` and `range(span).end()` is `position(span.end())`. -/
theorem range_endpoints (l : locator) (span : source_code_span)
    (hb : span.begin ≤ span.end_pointer) (he : span.end_pointer ≤ l.input_.length) :
    (l.range span).begin = l.position span.begin ∧
    (l.range span).end_position = l.position span.end_pointer := by
  have _hb := hb
  have _he := he
  exact ⟨rfl, rfl⟩

/-- C13 on the text `a\nbb\nccc` for the span of `bb`, offsets 2 to 4. -/
theorem range_endpoints_witness :
    (2 : Nat) ≤ 4 ∧ 4 ≤ sample_source.length ∧
    ((locator.mk sample_source).range ⟨2, 4⟩).begin
      = { line_number := 2, column_number := 1, offset := 2 } ∧
    ((locator.mk sample_source).range ⟨2, 4⟩).end_position
      = { line_number := 2, column_number := 3, offset := 4 } :=
  ⟨by decide, by decide,
    (range_endpoints (locator.mk sample_source) ⟨2, 4⟩ (by decide) (by decide)).1.trans
      (by decide),
    (range_endpoints (locator.mk sample_source) ⟨2, 4⟩ (by decide) (by decide)).2.trans
      (by decide)⟩

end quick_lint_js

/-! ## Lemmas on the memory of chunks -/

namespace quick_lint_js

namespace chunk_heap

theorem read_length (h : chunk_heap) (p : Pointer) (n : Nat) : (h.read p n).length = n := by
  simp [read]

theorem read_congr (h h2 : chunk_heap) (b o n : Nat)
    (hb : ∀ i, i < n → h2.bytes b (o + i) = h.bytes b (o + i)) :
    h2.read (Pointer.addr b o) n = h.read (Pointer.addr b o) n := by
  unfold read
  apply List.map_congr_left
  intro i hi
  exact hb i (List.mem_range.mp hi)

theorem read_add (h : chunk_heap) (b o m n : Nat) :
    h.read (Pointer.addr b o) (m + n)
      = h.read (Pointer.addr b o) m ++ h.read (Pointer.addr b (o + m)) n := by
  unfold read
  rw [List.range_add, List.map_append, List.map_map]
  congr 1
  apply List.map_congr_left
  intro i _
  simp [Nat.add_assoc]

theorem read_memcpy_self (h : chunk_heap) (b o : Nat) (src : List Nat) :
    (h.memcpy (Pointer.addr b o) src).read (Pointer.addr b o) src.length = src.map some := by
  apply List.ext_getElem?
  intro i
  by_cases hi : i < src.length
  · simp [read, memcpy, hi, List.getElem?_eq_getElem, List.getElem?_range]
  · have h1 : src.length ≤ i := by omega
    rw [List.getElem?_eq_none (by simpa [read] using h1),
      List.getElem?_eq_none (by simpa using h1)]

theorem read_drop (h : chunk_heap) (b o n k : Nat) :
    (h.read (Pointer.addr b o) n).drop k = h.read (Pointer.addr b (o + k)) (n - k) := by
  by_cases hk : k ≤ n
  · obtain ⟨m, rfl⟩ : ∃ m, n = k + m := ⟨n - k, by omega⟩
    rw [read_add, List.drop_left' (read_length _ _ _), Nat.add_sub_cancel_left]
  · have h0 : n - k = 0 := by omega
    rw [h0, List.drop_eq_nil_of_le (by rw [read_length]; omega)]
    simp [read]

end chunk_heap

end quick_lint_js
/-! ## Lemmas on the byte buffer -/

namespace quick_lint_js

namespace byte_buffer

theorem well_formed_cases (b : byte_buffer) (hw : b.well_formed) :
    ∃ init last k used, b.chunks_ = init ++ [last] ∧ last.data = Pointer.addr k 0 ∧
      k < b.heap.sizes.length ∧ b.cursor_ = Pointer.addr k used ∧
      b.current_chunk_end_ = Pointer.addr k last.size ∧ used ≤ last.size ∧
      (∀ c ∈ init, ∃ j, c.data = Pointer.addr j 0 ∧ j < b.heap.sizes.length ∧ j ≠ k) ∧
      List.Pairwise (fun c d : chunk => c.data.block ≠ d.data.block) init := by
  obtain ⟨h1, h2, last, used, h3, h4, h5, h6⟩ := hw
  obtain ⟨init, hinit⟩ := List.getLast?_eq_some_iff.mp h3
  obtain ⟨k, hk, hklt⟩ := h1 last (by rw [hinit]; simp)
  rw [hinit, List.pairwise_append] at h2
  obtain ⟨p1, _, p3⟩ := h2
  refine ⟨init, last, k, used, hinit, hk, hklt, ?_, ?_, h6, ?_, p1⟩
  · rw [h4, hk]; simp [Pointer.add]
  · rw [h5, hk]; simp [Pointer.add]
  · intro c hc
    obtain ⟨j, hj, hjlt⟩ := h1 c (by rw [hinit]; simp [hc])
    refine ⟨j, hj, hjlt, ?_⟩
    intro hjk
    have := p3 c hc last (by simp)
    rw [hj, hk, hjk] at this
    exact this rfl

theorem well_formed_of (init : List chunk) (last : chunk) (k used : Nat) (heap : chunk_heap)
    (hk : last.data = Pointer.addr k 0) (hlt : k < heap.sizes.length) (hu : used ≤ last.size)
    (hi : ∀ c ∈ init, ∃ j, c.data = Pointer.addr j 0 ∧ j < heap.sizes.length ∧ j ≠ k)
    (hp : List.Pairwise (fun c d : chunk => c.data.block ≠ d.data.block) init) :
    well_formed { chunks_ := init ++ [last], cursor_ := Pointer.addr k used,
                  current_chunk_end_ := Pointer.addr k last.size, heap := heap } := by
  refine ⟨?_, ?_, last, used, by simp, by simp [hk, Pointer.add],
    by simp [hk, Pointer.add], hu⟩
  · intro c hc
    simp only [List.mem_append, List.mem_singleton] at hc
    rcases hc with hc | hc
    · obtain ⟨j, hj, hjlt, _⟩ := hi c hc
      exact ⟨j, hj, hjlt⟩
    · exact ⟨k, by rw [hc, hk], hlt⟩
  · simp only [List.pairwise_append, List.pairwise_cons, List.Pairwise.nil, and_true]
    refine ⟨hp, by simp, ?_⟩
    intro c hc d hd
    simp only [List.mem_singleton] at hd
    obtain ⟨j, hj, _, hjk⟩ := hi c hc
    rw [hd, hj, hk]
    simp [Pointer.block, hjk]

end byte_buffer

end quick_lint_js
namespace quick_lint_js

namespace byte_buffer

theorem size_eq (init : List chunk) (last : chunk) (k used : Nat) (e : Pointer)
    (heap : chunk_heap) (hk : last.data = Pointer.addr k 0) :
    size (⟨init ++ [last], Pointer.addr k used, e, heap⟩ : byte_buffer)
      = (init.map fun c => c.size).sum + used := by
  simp [size, bytes_used_in_current_chunk, chunk_begin, hk, Pointer.diff, narrow_cast_size_t]
  rfl

theorem copy_to_eq (init : List chunk) (last : chunk) (k used : Nat) (e : Pointer)
    (heap : chunk_heap) (hk : last.data = Pointer.addr k 0) :
    copy_to (⟨init ++ [last], Pointer.addr k used, e, heap⟩ : byte_buffer)
      = (init.flatMap fun c => heap.read c.data c.size) ++ heap.read (Pointer.addr k 0) used := by
  simp [copy_to, bytes_used_in_current_chunk, chunk_begin, chunk_size, hk, Pointer.diff,
    narrow_cast_size_t]

theorem flatMap_read_congr (h h2 : chunk_heap) (kb : Nat)
    (hagree : ∀ b o, b ≠ kb → h2.bytes b o = h.bytes b o) (cs : List chunk)
    (hcs : ∀ c ∈ cs, c.data.block ≠ some kb) :
    (cs.flatMap fun c => h2.read c.data c.size) = cs.flatMap fun c => h.read c.data c.size := by
  induction cs with
  | nil => rfl
  | cons c cs ih =>
    simp only [List.flatMap_cons]
    rw [ih (fun d hd => hcs d (List.mem_cons_of_mem c hd))]
    congr 1
    have hc := hcs c (List.mem_cons_self c cs)
    cases hd : c.data with
    | null => simp [chunk_heap.read]
    | addr b o =>
      rw [hd] at hc
      apply chunk_heap.read_congr
      intro i _
      exact hagree b (o + i) (fun hb => hc (by simp [Pointer.block, hb]))

theorem append_copy_spec (b : byte_buffer) (data : List Nat) (hw : b.well_formed) :
    (append_copy b data).well_formed ∧
    (append_copy b data).copy_to = b.copy_to ++ data.map some ∧
    (append_copy b data).size = b.size + data.length := by
  obtain ⟨init, last, k, used, h1, hk, hklt, h4, h5, h6, h7, h8⟩ := well_formed_cases b hw
  rcases b with ⟨cs, cur, ce, heap⟩
  simp only at h1 h4 h5 hklt h7
  subst h1 h4 h5
  by_cases hroom : last.size - used < data.length
  · have hr : append_copy (⟨init ++ [last], Pointer.addr k used, Pointer.addr k last.size,
        heap⟩ : byte_buffer) data
        = ⟨(init ++ [⟨last.data, used⟩]) ++
              [⟨Pointer.addr heap.sizes.length 0, max data.length default_chunk_size⟩],
            Pointer.addr heap.sizes.length data.length,
            Pointer.addr heap.sizes.length (max data.length default_chunk_size),
            (make_chunk heap (max data.length default_chunk_size)).2.memcpy
              (Pointer.addr heap.sizes.length 0) data⟩ := by
      simp [append_copy, append, reserve, bytes_remaining_in_current_chunk, Pointer.diff,
        narrow_cast_size_t, Pointer.add, hroom, add_new_chunk, update_current_chunk_size,
        bytes_used_in_current_chunk, make_chunk, chunk_begin, chunk_end, hk]
    have hne : ∀ c ∈ init ++ [(⟨last.data, used⟩ : chunk)],
        ∃ j, c.data = Pointer.addr j 0 ∧ j < heap.sizes.length ∧ j ≠ heap.sizes.length := by
      intro c hc
      simp only [List.mem_append, List.mem_singleton] at hc
      rcases hc with hc | hc
      · obtain ⟨j, hj, hjlt, _⟩ := h7 c hc
        exact ⟨j, hj, hjlt, by omega⟩
      · exact ⟨k, by rw [hc]; exact hk, hklt, by omega⟩
    have hinit : ((init ++ [(⟨last.data, used⟩ : chunk)]).flatMap fun c =>
          ((make_chunk heap (max data.length default_chunk_size)).2.memcpy
            (Pointer.addr heap.sizes.length 0) data).read c.data c.size)
        = (init ++ [(⟨last.data, used⟩ : chunk)]).flatMap fun c => heap.read c.data c.size := by
      apply flatMap_read_congr heap _ heap.sizes.length
      · intro b2 o hb
        simp [chunk_heap.memcpy, make_chunk, hb]
      · intro c hc
        obtain ⟨j, hj, _, hjk⟩ := hne c hc
        simp [hj, Pointer.block, hjk]
    rw [hr, copy_to_eq _ _ _ _ _ _ rfl, copy_to_eq _ _ _ _ _ _ hk, size_eq _ _ _ _ _ _ rfl,
      size_eq _ _ _ _ _ _ hk]
    refine ⟨?_, ?_, ?_⟩
    · apply well_formed_of _ _ heap.sizes.length data.length _ rfl
      · simp [chunk_heap.memcpy, make_chunk]
      · exact le_max_left _ _
      · intro c hc
        obtain ⟨j, hj, hjlt, hjk⟩ := hne c hc
        exact ⟨j, hj, by simp [chunk_heap.memcpy, make_chunk]; omega, hjk⟩
      · rw [List.pairwise_append]
        refine ⟨h8, by simp, ?_⟩
        intro c hc d hd
        simp only [List.mem_singleton] at hd
        obtain ⟨j, hj, _, hjk⟩ := h7 c hc
        rw [hd, hj, hk]
        simp [Pointer.block, hjk]
    · rw [hinit, List.flatMap_append]
      simp only [List.flatMap_cons, List.flatMap_nil, List.append_nil, hk, List.append_assoc]
      congr 2
      exact chunk_heap.read_memcpy_self _ heap.sizes.length 0 data
    · simp
  · have hr : append_copy (⟨init ++ [last], Pointer.addr k used, Pointer.addr k last.size,
        heap⟩ : byte_buffer) data
        = ⟨init ++ [last], Pointer.addr k (used + data.length), Pointer.addr k last.size,
            heap.memcpy (Pointer.addr k used) data⟩ := by
      simp [append_copy, append, reserve, bytes_remaining_in_current_chunk, Pointer.diff,
        narrow_cast_size_t, Pointer.add, hroom]
    rw [hr, copy_to_eq _ _ _ _ _ _ hk, copy_to_eq _ _ _ _ _ _ hk, size_eq _ _ _ _ _ _ hk,
      size_eq _ _ _ _ _ _ hk]
    have hfit : used + data.length ≤ last.size := by omega
    have hinit : (init.flatMap fun c => (heap.memcpy (Pointer.addr k used) data).read c.data c.size)
        = init.flatMap fun c => heap.read c.data c.size := by
      apply flatMap_read_congr heap _ k
      · intro b2 o hb
        simp [chunk_heap.memcpy, hb]
      · intro c hc
        obtain ⟨j, hj, _, hjk⟩ := h7 c hc
        simp [hj, Pointer.block, hjk]
    refine ⟨?_, ?_, by omega⟩
    · exact well_formed_of init last k (used + data.length)
        (heap.memcpy (Pointer.addr k used) data) hk (by simpa [chunk_heap.memcpy] using hklt)
        hfit (by simpa [chunk_heap.memcpy] using h7) h8
    · rw [hinit, chunk_heap.read_add, List.append_assoc]
      congr 2
      · apply chunk_heap.read_congr
        intro i hi
        simp only [chunk_heap.memcpy, Nat.zero_add]
        rw [if_neg (by omega)]
      · rw [Nat.zero_add]
        exact chunk_heap.read_memcpy_self heap k used data

end byte_buffer

end quick_lint_js
namespace quick_lint_js

namespace byte_buffer

theorem create_spec (heap : chunk_heap) :
    (create heap).well_formed ∧ (create heap).copy_to = [] ∧ (create heap).size = 0 := by
  have hr : create heap = ⟨[] ++ [⟨Pointer.addr heap.sizes.length 0, default_chunk_size⟩],
      Pointer.addr heap.sizes.length 0, Pointer.addr heap.sizes.length default_chunk_size,
      (make_chunk heap default_chunk_size).2⟩ := by
    simp [create, add_new_chunk, make_chunk, chunk_begin, chunk_end, Pointer.add]
  rw [hr, copy_to_eq _ _ _ _ _ _ rfl, size_eq _ _ _ _ _ _ rfl]
  refine ⟨?_, by simp [chunk_heap.read], by simp⟩
  exact well_formed_of [] _ heap.sizes.length 0 _ rfl (by simp [make_chunk]) (Nat.zero_le _)
    (by simp) List.Pairwise.nil

theorem foldl_append_copy_spec (bs : List (List Nat)) :
    ∀ b : byte_buffer, b.well_formed →
      (bs.foldl append_copy b).well_formed ∧
      (bs.foldl append_copy b).copy_to = b.copy_to ++ bs.flatten.map some ∧
      (bs.foldl append_copy b).size = b.size + (bs.map List.length).sum := by
  induction bs with
  | nil => intro b hw; simp [hw]
  | cons d bs ih =>
    intro b hw
    obtain ⟨a1, a2, a3⟩ := append_copy_spec b d hw
    obtain ⟨i1, i2, i3⟩ := ih (append_copy b d) a1
    simp only [List.foldl_cons, List.flatten_cons, List.map_cons, List.sum_cons, List.map_append]
    exact ⟨i1, by rw [i2, a2, List.append_assoc], by rw [i3, a3]; omega⟩

theorem prepend_copy_spec (b : byte_buffer) (data : List Nat) (hw : b.well_formed) :
    (prepend_copy b data).well_formed ∧
    (prepend_copy b data).copy_to = data.map some ++ b.copy_to ∧
    (prepend_copy b data).size = b.size + data.length := by
  obtain ⟨init, last, k, used, h1, hk, hklt, h4, h5, h6, h7, h8⟩ := well_formed_cases b hw
  rcases b with ⟨cs, cur, ce, heap⟩
  simp only at h1 h4 h5 hklt h7
  subst h1 h4 h5
  have hr : prepend_copy (⟨init ++ [last], Pointer.addr k used, Pointer.addr k last.size,
      heap⟩ : byte_buffer) data
      = ⟨((⟨Pointer.addr heap.sizes.length 0, data.length⟩ : chunk) :: init) ++ [last],
          Pointer.addr k used, Pointer.addr k last.size,
          (make_chunk heap data.length).2.memcpy (Pointer.addr heap.sizes.length 0) data⟩ := by
    simp [prepend_copy, make_chunk, chunk_begin]
  have hagree : ∀ b2 o, b2 ≠ heap.sizes.length →
      ((make_chunk heap data.length).2.memcpy (Pointer.addr heap.sizes.length 0) data).bytes b2 o
        = heap.bytes b2 o := by
    intro b2 o hb
    simp [chunk_heap.memcpy, make_chunk, hb]
  have hinit : (init.flatMap fun c =>
        ((make_chunk heap data.length).2.memcpy (Pointer.addr heap.sizes.length 0) data).read
          c.data c.size)
      = init.flatMap fun c => heap.read c.data c.size := by
    apply flatMap_read_congr heap _ heap.sizes.length hagree
    intro c hc
    obtain ⟨j, hj, hjlt, _⟩ := h7 c hc
    have : j ≠ heap.sizes.length := by omega
    simp [hj, Pointer.block, this]
  rw [hr, copy_to_eq _ _ _ _ _ _ hk, copy_to_eq _ _ _ _ _ _ hk, size_eq _ _ _ _ _ _ hk,
    size_eq _ _ _ _ _ _ hk]
  refine ⟨?_, ?_, ?_⟩
  · apply well_formed_of _ _ k used _ hk
    · simp [chunk_heap.memcpy, make_chunk]; omega
    · exact h6
    · intro c hc
      simp only [List.mem_cons] at hc
      rcases hc with hc | hc
      · exact ⟨heap.sizes.length, by rw [hc], by simp [chunk_heap.memcpy, make_chunk],
          by omega⟩
      · obtain ⟨j, hj, hjlt, hjk⟩ := h7 c hc
        exact ⟨j, hj, by simp [chunk_heap.memcpy, make_chunk]; omega, hjk⟩
    · rw [List.pairwise_cons]
      refine ⟨?_, h8⟩
      intro c hc
      obtain ⟨j, hj, hjlt, _⟩ := h7 c hc
      have : heap.sizes.length ≠ j := by omega
      simp [hj, Pointer.block, this]
  · simp only [List.flatMap_cons, hinit, List.append_assoc]
    congr 1
    · exact chunk_heap.read_memcpy_self _ heap.sizes.length 0 data
    · congr 1
      apply chunk_heap.read_congr
      intro i _
      exact hagree k (0 + i) (by omega)
  · simp
    omega

end byte_buffer

/-! ## The byte buffer: appending and prepending -/

/-- C14: after `append_copy(b1), ..., append_copy(bn)` on an empty byte buffer,
`size()` is `|b1| + ... + |bn|` and `copy_to` writes exactly `size()` bytes, the
concatenation `b1 ++ ... ++ bn` in append order; `He` then `llo` gives size 5
and `Hello`. -/
theorem append_copy_sequence (heap : chunk_heap) (bs : List (List Nat)) :
    (bs.foldl byte_buffer.append_copy (byte_buffer.create heap)).size
      = (bs.map List.length).sum ∧
    (bs.foldl byte_buffer.append_copy (byte_buffer.create heap)).copy_to
      = bs.flatten.map some ∧
    (bs.foldl byte_buffer.append_copy (byte_buffer.create heap)).copy_to.length
      = (bs.foldl byte_buffer.append_copy (byte_buffer.create heap)).size ∧
    hello_buffer.size = 5 ∧
    hello_buffer.copy_to = [some 72, some 101, some 108, some 108, some 111] := by
  obtain ⟨c1, c2, c3⟩ := byte_buffer.create_spec heap
  obtain ⟨_, f2, f3⟩ := byte_buffer.foldl_append_copy_spec bs (byte_buffer.create heap) c1
  rw [c2, List.nil_append] at f2
  rw [c3, Nat.zero_add] at f3
  refine ⟨f3, f2, ?_, by decide, by decide⟩
  rw [f2, f3, List.length_map, List.length_flatten]

/-- C15: for a byte buffer in a valid state with content `c` (what `copy_to`
writes), after `prepend_copy(p0)` the content is `p0 ++ c` and `size()` has
grown by `|p0|`; so appending `p1`, then `p2`, then prepending `p0` to an empty
buffer gives `p0 ++ p1 ++ p2`. -/
theorem prepend_copy_content (b : byte_buffer) (p0 : List Nat) (hw : b.well_formed) :
    (byte_buffer.prepend_copy b p0).copy_to = p0.map some ++ b.copy_to ∧
    (byte_buffer.prepend_copy b p0).size = b.size + p0.length ∧
    ∀ (heap : chunk_heap) (p1 p2 : List Nat),
      (byte_buffer.prepend_copy
        (byte_buffer.append_copy (byte_buffer.append_copy (byte_buffer.create heap) p1) p2)
        p0).copy_to = (p0 ++ p1 ++ p2).map some := by
  obtain ⟨_, h2, h3⟩ := byte_buffer.prepend_copy_spec b p0 hw
  refine ⟨h2, h3, ?_⟩
  intro heap p1 p2
  obtain ⟨c1, c2, _⟩ := byte_buffer.create_spec heap
  obtain ⟨a1, a2, _⟩ := byte_buffer.append_copy_spec _ p1 c1
  obtain ⟨b1, b2, _⟩ := byte_buffer.append_copy_spec _ p2 a1
  obtain ⟨_, d2, _⟩ := byte_buffer.prepend_copy_spec _ p0 b1
  rw [d2, b2, a2, c2]
  simp

end quick_lint_js
/-! ## Lemmas on the descriptor list -/

namespace quick_lint_js

namespace byte_buffer_iovec

theorem first_chunk_eq (v : byte_buffer_iovec) (c : chunk) (rest : List chunk)
    (h : v.iovec = c :: rest) : v.chunks_[v.first_chunk_]? = some c := by
  have := List.head?_drop v.chunks_ v.first_chunk_
  unfold iovec at h
  rw [h] at this
  simpa using this.symm

theorem iovec_drop_first_chunk (v : byte_buffer_iovec) (c : chunk) (rest : List chunk)
    (h : v.iovec = c :: rest) : (drop_first_chunk v).iovec = rest := by
  unfold iovec at h ⊢
  simp only [drop_first_chunk]
  rw [← List.tail_drop, h]
  rfl

theorem iovec_shrink_first_chunk (v : byte_buffer_iovec) (c : chunk) (rest : List chunk)
    (n : Nat) (h : v.iovec = c :: rest) :
    (shrink_first_chunk v c n).iovec = ⟨c.data.add n, c.size - n⟩ :: rest := by
  unfold iovec at h ⊢
  simp only [shrink_first_chunk]
  rw [List.drop_set, if_neg (Nat.lt_irrefl _), h]
  simp

theorem remove_front_loop_spec (entries : Nat) :
    ∀ (v : byte_buffer_iovec) (count : Nat), v.iovec.length = entries → v.well_formed →
      count ≤ v.remaining →
      ∃ v2, remove_front_loop entries v count = some v2 ∧ v2.well_formed ∧
        v2.bytes = v.bytes.drop count ∧ v2.remaining = v.remaining - count := by
  induction entries with
  | zero =>
    intro v count hlen _ hc
    have hnil : v.iovec = [] := List.length_eq_zero.mp hlen
    have h0 : count = 0 := by simpa [remaining, hnil] using hc
    subst h0
    exact ⟨v, by simp [remove_front_loop], by assumption, by simp, by simp⟩
  | succ n ih =>
    intro v count hlen hw hc
    cases count with
    | zero => exact ⟨v, by simp [remove_front_loop], hw, by simp, by simp⟩
    | succ m =>
      obtain ⟨c, rest, hv⟩ : ∃ c rest, v.iovec = c :: rest := by
        cases hi : v.iovec with
        | nil => rw [hi] at hlen; simp at hlen
        | cons c rest => exact ⟨c, rest, rfl⟩
      obtain ⟨w1, w2, w3⟩ := hw
      rw [hv] at w1 w2 w3
      have hfirst := first_chunk_eq v c rest hv
      have hcnn : c.data ≠ Pointer.null := w1 c (by simp)
      obtain ⟨kb, o, hcd⟩ : ∃ kb o, c.data = Pointer.addr kb o := by
        cases hd : c.data with
        | null => exact absurd hd hcnn
        | addr kb o => exact ⟨kb, o, rfl⟩
      have halloc : v.first_chunk_allocation_.data.block = some kb := by
        rw [w3 c rfl, hcd]; rfl
      rw [List.pairwise_cons] at w2
      have hbytes : v.bytes
          = v.heap.read c.data c.size ++ rest.flatMap fun d => v.heap.read d.data d.size := by
        simp [bytes, hv]
      have hrem : v.remaining = c.size + (rest.map fun d => d.size).sum := by
        simp [remaining, hv]
      simp only [remove_front_loop, hfirst]
      by_cases hle : c.size ≤ m + 1
      · rw [if_pos hle]
        have hi2 := iovec_drop_first_chunk v c rest hv
        have hw2 : (drop_first_chunk v).well_formed := by
          refine ⟨?_, ?_, ?_⟩
          · rw [hi2]; intro d hd; exact w1 d (by simp [hd])
          · rw [hi2]; exact w2.2
          · rw [hi2]
            intro d hd
            obtain ⟨ys, hys⟩ := List.head?_eq_some_iff.mp hd
            have h1 : (drop_first_chunk v).iovec.head? = some d := by rw [hi2, hd]
            have h2 : v.chunks_[v.first_chunk_ + 1]? = some d := by
              have := List.head?_drop v.chunks_ (v.first_chunk_ + 1)
              unfold iovec at h1
              simp only [drop_first_chunk] at h1
              rw [h1] at this
              exact this.symm
            simp [drop_first_chunk, h2]
        have hb2 : (drop_first_chunk v).bytes = rest.flatMap fun d => v.heap.read d.data d.size := by
          unfold bytes
          rw [hi2]
          apply byte_buffer.flatMap_read_congr v.heap _ kb
          · intro b2 o2 hb
            cases ha : v.first_chunk_allocation_.data with
            | null => rw [ha] at halloc; simp [Pointer.block] at halloc
            | addr ka oa =>
              rw [ha] at halloc
              simp only [Pointer.block, Option.some.injEq] at halloc
              simp [drop_first_chunk, byte_buffer.delete_chunk, ha, halloc, hb]
          · intro d hd
            have := w2.1 d hd
            rw [hcd] at this
            exact fun h => this (by rw [h]; rfl)
        have hr2 : (drop_first_chunk v).remaining = (rest.map fun d => d.size).sum := by
          simp [remaining, hi2]
        obtain ⟨v2, e1, e2, e3, e4⟩ := ih (drop_first_chunk v) (m + 1 - c.size)
          (by rw [hi2]; simpa [hv] using hlen) hw2 (by rw [hr2]; omega)
        refine ⟨v2, e1, e2, ?_, by rw [e4, hr2, hrem]; omega⟩
        rw [e3, hb2, hbytes]
        have hsplit : m + 1 = (v.heap.read c.data c.size).length + (m + 1 - c.size) := by
          rw [chunk_heap.read_length]; omega
        conv => rhs; rw [hsplit, List.drop_append]
      · rw [if_neg hle]
        have hi2 := iovec_shrink_first_chunk v c rest (m + 1) hv
        refine ⟨shrink_first_chunk v c (m + 1), rfl, ⟨?_, ?_, ?_⟩, ?_, ?_⟩
        · rw [hi2]
          intro d hd
          simp only [List.mem_cons] at hd
          rcases hd with hd | hd
          · rw [hd, hcd]; simp [Pointer.add]
          · exact w1 d (by simp [hd])
        · rw [hi2, List.pairwise_cons]
          refine ⟨?_, w2.2⟩
          intro d hd
          have := w2.1 d hd
          rw [hcd] at this ⊢
          simpa [Pointer.add, Pointer.block] using this
        · rw [hi2]
          intro d hd
          simp only [List.head?_cons, Option.some.injEq] at hd
          rw [← hd, hcd]
          simpa [shrink_first_chunk, Pointer.add, Pointer.block] using halloc
        · have hb2 : (shrink_first_chunk v c (m + 1)).bytes
              = v.heap.read (c.data.add (m + 1)) (c.size - (m + 1)) ++
                rest.flatMap fun d => v.heap.read d.data d.size := by
            unfold bytes
            rw [hi2]
            simp [shrink_first_chunk]
          rw [hb2, hbytes,
            List.drop_append_of_le_length (by rw [chunk_heap.read_length]; omega), hcd,
            chunk_heap.read_drop]
          rfl
        · have hr2 : (shrink_first_chunk v c (m + 1)).remaining
              = (c.size - (m + 1)) + (rest.map fun d => d.size).sum := by
            unfold remaining
            rw [hi2]
            simp
          rw [hr2, hrem]
          omega

theorem remove_front_spec (v : byte_buffer_iovec) (count : Nat) (hw : v.well_formed)
    (hc : count ≤ v.remaining) :
    ∃ v2, remove_front v count = some v2 ∧ v2.well_formed ∧
      v2.bytes = v.bytes.drop count ∧ v2.remaining = v.remaining - count :=
  remove_front_loop_spec v.iovec_count v count rfl hw hc

end byte_buffer_iovec

end quick_lint_js
namespace quick_lint_js

theorem to_iovec_spec (b : byte_buffer) (hw : b.well_formed) :
    b.to_iovec.well_formed ∧ b.to_iovec.bytes = b.copy_to ∧ b.to_iovec.remaining = b.size := by
  obtain ⟨init, last, k, used, h1, hk, hklt, h4, h5, h6, h7, h8⟩ :=
    byte_buffer.well_formed_cases b hw
  rcases b with ⟨cs, cur, ce, heap⟩
  simp only at h1 h4 h5 hklt h7
  subst h1 h4 h5
  have hi : (byte_buffer.to_iovec (⟨init ++ [last], Pointer.addr k used,
      Pointer.addr k last.size, heap⟩ : byte_buffer)).iovec = init ++ [⟨last.data, used⟩] := by
    simp [byte_buffer.to_iovec, byte_buffer_iovec.create, byte_buffer_iovec.iovec,
      byte_buffer.update_current_chunk_size, byte_buffer.bytes_used_in_current_chunk,
      byte_buffer.chunk_begin, hk, Pointer.diff, narrow_cast_size_t]
  have hh : (byte_buffer.to_iovec (⟨init ++ [last], Pointer.addr k used,
      Pointer.addr k last.size, heap⟩ : byte_buffer)).heap = heap := rfl
  have ha : (byte_buffer.to_iovec (⟨init ++ [last], Pointer.addr k used,
      Pointer.addr k last.size, heap⟩ : byte_buffer)).first_chunk_allocation_
      = (init ++ [(⟨last.data, used⟩ : chunk)]).head?.getD ⟨Pointer.null, 0⟩ := by
    simp [byte_buffer.to_iovec, byte_buffer_iovec.create,
      byte_buffer.update_current_chunk_size, byte_buffer.bytes_used_in_current_chunk,
      byte_buffer.chunk_begin, hk, Pointer.diff, narrow_cast_size_t]
  refine ⟨⟨?_, ?_, ?_⟩, ?_, ?_⟩
  · rw [hi]
    intro c hc
    simp only [List.mem_append, List.mem_singleton] at hc
    rcases hc with hc | hc
    · obtain ⟨j, hj, _, _⟩ := h7 c hc
      rw [hj]; simp
    · rw [hc]; simp [hk]
  · rw [hi, List.pairwise_append]
    refine ⟨h8, by simp, ?_⟩
    intro c hc d hd
    simp only [List.mem_singleton] at hd
    obtain ⟨j, hj, _, hjk⟩ := h7 c hc
    rw [hd, hj, hk]
    simp [Pointer.block, hjk]
  · rw [hi, ha]
    intro c hc
    rw [hc]
    rfl
  · unfold byte_buffer_iovec.bytes
    rw [hi, hh, byte_buffer.copy_to_eq _ _ _ _ _ _ hk]
    simp [hk]
  · unfold byte_buffer_iovec.remaining
    rw [hi, byte_buffer.size_eq _ _ _ _ _ _ hk]
    simp

theorem remove_front_each_spec (counts : List Nat) :
    ∀ v : byte_buffer_iovec, v.well_formed → counts.sum ≤ v.remaining →
      ∃ v2, counts.foldlM byte_buffer_iovec.remove_front v = some v2 ∧ v2.well_formed ∧
        v2.bytes = v.bytes.drop counts.sum ∧ v2.remaining = v.remaining - counts.sum := by
  induction counts with
  | nil => intro v hw _; exact ⟨v, rfl, hw, by simp, by simp⟩
  | cons k ks ih =>
    intro v hw hs
    simp only [List.sum_cons] at hs
    obtain ⟨v1, e1, e2, e3, e4⟩ := byte_buffer_iovec.remove_front_spec v k hw (by omega)
    obtain ⟨v2, f1, f2, f3, f4⟩ := ih v1 e2 (by rw [e4]; omega)
    refine ⟨v2, ?_, f2, ?_, ?_⟩
    · simp only [List.foldlM_cons, e1]
      exact f1
    · rw [f3, e3, List.drop_drop, List.sum_cons]
    · rw [f4, e4, List.sum_cons]; omega

theorem hello_buffer_well_formed : hello_buffer.well_formed :=
  (byte_buffer.append_copy_spec _ bytes_llo
    (byte_buffer.append_copy_spec _ bytes_He (byte_buffer.create_spec fresh_heap).1).1).1

/-- C15 on the buffer holding `Hello`, with the bytes 1, 2, 3 prepended. -/
theorem prepend_copy_content_witness :
    hello_buffer.well_formed ∧
    (byte_buffer.prepend_copy hello_buffer [1, 2, 3]).copy_to
      = [some 1, some 2, some 3] ++ hello_buffer.copy_to ∧
    (byte_buffer.prepend_copy hello_buffer [1, 2, 3]).size = hello_buffer.size + 3 :=
  ⟨hello_buffer_well_formed,
    (prepend_copy_content hello_buffer [1, 2, 3] hello_buffer_well_formed).1,
    (prepend_copy_content hello_buffer [1, 2, 3] hello_buffer_well_formed).2.1⟩

/-! ## The descriptor list -/

/-- C16: for a byte buffer in a valid state with content `c`, the regions of
`to_iovec()` concatenate to `c`; for a descriptor list in a valid state and
`count` at most the remaining total, `remove_front(count)` succeeds and leaves
the previous concatenation without its first `count` bytes; so removals in
increments summing to at most `|c|` leave `c` without its first bytes, and
nothing when they sum to `|c|`. -/
theorem iovec_remove_front_content (b : byte_buffer) (hw : b.well_formed) :
    b.to_iovec.bytes = b.copy_to ∧
    (∀ (v : byte_buffer_iovec) (count : Nat), v.well_formed → count ≤ v.remaining →
      ∃ v2, v.remove_front count = some v2 ∧ v2.well_formed ∧
        v2.bytes = v.bytes.drop count) ∧
    (∀ counts : List Nat, counts.sum ≤ b.size →
      ∃ v2, counts.foldlM byte_buffer_iovec.remove_front b.to_iovec = some v2 ∧
        v2.bytes = b.copy_to.drop counts.sum ∧
        (counts.sum = b.size → v2.bytes = [] ∧ v2.remaining = 0)) := by
  obtain ⟨t1, t2, t3⟩ := to_iovec_spec b hw
  refine ⟨t2, ?_, ?_⟩
  · intro v count hv hc
    obtain ⟨v2, e1, e2, e3, _⟩ := byte_buffer_iovec.remove_front_spec v count hv hc
    exact ⟨v2, e1, e2, e3⟩
  · intro counts hs
    obtain ⟨v2, e1, _, e3, e4⟩ := remove_front_each_spec counts b.to_iovec t1 (by rw [t3]; exact hs)
    refine ⟨v2, e1, by rw [e3, t2], ?_⟩
    intro hsum
    have hlen : b.to_iovec.bytes.length = b.size := by
      rw [← t3]
      unfold byte_buffer_iovec.bytes byte_buffer_iovec.remaining
      induction b.to_iovec.iovec with
      | nil => rfl
      | cons c cs ih => simp [chunk_heap.read_length, ih]
    refine ⟨?_, by rw [e4, t3, hsum]; omega⟩
    rw [e3]
    exact List.drop_eq_nil_of_le (by rw [hlen, hsum])

/-- C16 on the buffer holding `Hello`: removing 1, then 3, then 1 bytes from its
descriptor list leaves nothing, and removing 2 bytes leaves `llo`. -/
theorem iovec_remove_front_content_witness :
    hello_buffer.well_formed ∧
    hello_buffer.to_iovec.bytes = hello_buffer.copy_to ∧
    (∃ v2, [1, 3, 1].foldlM byte_buffer_iovec.remove_front hello_buffer.to_iovec = some v2 ∧
      v2.bytes = hello_buffer.copy_to.drop ([1, 3, 1] : List Nat).sum ∧
      (([1, 3, 1] : List Nat).sum = hello_buffer.size → v2.bytes = [] ∧ v2.remaining = 0)) :=
  ⟨hello_buffer_well_formed,
    (iovec_remove_front_content hello_buffer hello_buffer_well_formed).1,
    (iovec_remove_front_content hello_buffer hello_buffer_well_formed).2.2 [1, 3, 1]
      (by decide)⟩

end quick_lint_js
namespace quick_lint_js

namespace byte_buffer

theorem reserve_room (b : byte_buffer) (n : Nat) :
    n ≤ (reserve b n).bytes_remaining_in_current_chunk := by
  unfold reserve
  by_cases h : b.bytes_remaining_in_current_chunk < n
  · rw [if_pos h]
    simp [add_new_chunk, make_chunk, bytes_remaining_in_current_chunk, chunk_begin, chunk_end,
      Pointer.add, Pointer.diff, narrow_cast_size_t]
  · rw [if_neg h]
    omega

theorem reserve_keeps_content (b : byte_buffer) (n : Nat) (hw : b.well_formed) :
    (reserve b n).well_formed ∧ (reserve b n).size = b.size ∧
    (reserve b n).copy_to = b.copy_to := by
  unfold reserve
  by_cases h : b.bytes_remaining_in_current_chunk < n
  · rw [if_pos h]
    obtain ⟨init, last, k, used, h1, hk, hklt, h4, h5, h6, h7, h8⟩ := well_formed_cases b hw
    rcases b with ⟨cs, cur, ce, heap⟩
    simp only at h1 h4 h5 hklt h7
    subst h1 h4 h5
    have hr : add_new_chunk (update_current_chunk_size (⟨init ++ [last], Pointer.addr k used,
        Pointer.addr k last.size, heap⟩ : byte_buffer)) (max n default_chunk_size)
        = ⟨(init ++ [⟨last.data, used⟩]) ++
              [⟨Pointer.addr heap.sizes.length 0, max n default_chunk_size⟩],
            Pointer.addr heap.sizes.length 0,
            Pointer.addr heap.sizes.length (max n default_chunk_size),
            (make_chunk heap (max n default_chunk_size)).2⟩ := by
      simp [Pointer.diff, narrow_cast_size_t, Pointer.add, add_new_chunk,
        update_current_chunk_size, bytes_used_in_current_chunk, make_chunk, chunk_begin,
        chunk_end, hk]
    have hne : ∀ c ∈ init ++ [(⟨last.data, used⟩ : chunk)],
        ∃ j, c.data = Pointer.addr j 0 ∧ j < heap.sizes.length ∧ j ≠ heap.sizes.length := by
      intro c hc
      simp only [List.mem_append, List.mem_singleton] at hc
      rcases hc with hc | hc
      · obtain ⟨j, hj, hjlt, _⟩ := h7 c hc
        exact ⟨j, hj, hjlt, by omega⟩
      · exact ⟨k, by rw [hc]; exact hk, hklt, by omega⟩
    have hinit : ((init ++ [(⟨last.data, used⟩ : chunk)]).flatMap fun c =>
          (make_chunk heap (max n default_chunk_size)).2.read c.data c.size)
        = (init ++ [(⟨last.data, used⟩ : chunk)]).flatMap fun c => heap.read c.data c.size := by
      apply flatMap_read_congr heap _ heap.sizes.length
      · intro b2 o hb
        simp [make_chunk, hb]
      · intro c hc
        obtain ⟨j, hj, _, hjk⟩ := hne c hc
        simp [hj, Pointer.block, hjk]
    rw [hr, copy_to_eq _ _ _ _ _ _ rfl, copy_to_eq _ _ _ _ _ _ hk, size_eq _ _ _ _ _ _ rfl,
      size_eq _ _ _ _ _ _ hk]
    refine ⟨?_, by simp, ?_⟩
    · apply well_formed_of _ _ heap.sizes.length 0 _ rfl
      · simp [make_chunk]
      · exact Nat.zero_le _
      · intro c hc
        obtain ⟨j, hj, hjlt, hjk⟩ := hne c hc
        exact ⟨j, hj, by simp [make_chunk]; omega, hjk⟩
      · rw [List.pairwise_append]
        refine ⟨h8, by simp, ?_⟩
        intro c hc d hd
        simp only [List.mem_singleton] at hd
        obtain ⟨j, hj, _, hjk⟩ := h7 c hc
        rw [hd, hj, hk]
        simp [Pointer.block, hjk]
    · rw [hinit, List.flatMap_append]
      simp [hk, chunk_heap.read]
  · rw [if_neg h]
    exact ⟨hw, rfl, rfl⟩

theorem size_advance (b : byte_buffer) (w : Nat) (heap2 : chunk_heap) (hw : b.well_formed) :
    size (⟨b.chunks_, b.cursor_.add w, b.current_chunk_end_, heap2⟩ : byte_buffer)
      = b.size + w := by
  obtain ⟨init, last, k, used, h1, hk, hklt, h4, h5, h6, h7, h8⟩ := well_formed_cases b hw
  rcases b with ⟨cs, cur, ce, heap⟩
  simp only at h1 h4 h5 hklt h7
  subst h1 h4 h5
  simp only [Pointer.add]
  rw [size_eq _ _ _ _ _ _ hk, size_eq _ _ _ _ _ _ hk]
  omega

end byte_buffer

/-! ## The byte buffer: writers and new chunks -/

/-- C17: for a byte buffer in a valid state and a writer that, called on the
cursor obtained after reserving `max_byte_count` bytes, reports `w <=
max_byte_count`, `append(max_byte_count, writer)` returns normally; the memory is
what that one call of the writer left, and the cursor and `size()` have advanced
by exactly `w`. -/
theorem append_with_writer_advances (b : byte_buffer) (max_byte_count : Nat)
    (f : chunk_writer) (hw : b.well_formed)
    (hreport : (f (byte_buffer.reserve b max_byte_count).cursor_
      (byte_buffer.reserve b max_byte_count).heap).1 ≤ max_byte_count) :
    ∃ b2, byte_buffer.append_with_writer b max_byte_count f = Except.ok b2 ∧
      b2.heap = (f (byte_buffer.reserve b max_byte_count).cursor_
        (byte_buffer.reserve b max_byte_count).heap).2 ∧
      b2.cursor_ = (byte_buffer.reserve b max_byte_count).cursor_.add
        (f (byte_buffer.reserve b max_byte_count).cursor_
          (byte_buffer.reserve b max_byte_count).heap).1 ∧
      b2.chunks_ = (byte_buffer.reserve b max_byte_count).chunks_ ∧
      b2.size = b.size + (f (byte_buffer.reserve b max_byte_count).cursor_
        (byte_buffer.reserve b max_byte_count).heap).1 := by
  obtain ⟨r1, r2, _⟩ := byte_buffer.reserve_keeps_content b max_byte_count hw
  refine ⟨⟨(byte_buffer.reserve b max_byte_count).chunks_,
      (byte_buffer.reserve b max_byte_count).cursor_.add
        (f (byte_buffer.reserve b max_byte_count).cursor_
          (byte_buffer.reserve b max_byte_count).heap).1,
      (byte_buffer.reserve b max_byte_count).current_chunk_end_,
      (f (byte_buffer.reserve b max_byte_count).cursor_
        (byte_buffer.reserve b max_byte_count).heap).2⟩, ?_, rfl, rfl, rfl, ?_⟩
  · simp only [byte_buffer.append_with_writer, hreport, if_true]
  rw [← r2]
  exact byte_buffer.size_advance (byte_buffer.reserve b max_byte_count) _ _ r1

/-- C17 on the buffer holding `Hello`: a writer given room for 20 bytes that
writes and reports one byte makes the size 6, not 25. -/
theorem append_with_writer_advances_witness :
    hello_buffer.well_formed ∧
    (one_byte_writer (byte_buffer.reserve hello_buffer 20).cursor_
      (byte_buffer.reserve hello_buffer 20).heap).1 ≤ 20 ∧
    ∃ b2, byte_buffer.append_with_writer hello_buffer 20 one_byte_writer = Except.ok b2 ∧
      b2.size = hello_buffer.size + 1 :=
  ⟨hello_buffer_well_formed, by decide,
    (append_with_writer_advances hello_buffer 20 one_byte_writer hello_buffer_well_formed
      (by decide)).imp fun _ h => ⟨h.1, h.2.2.2.2⟩⟩

/-- C18: `append(max_byte_count, writer)` fails fatally exactly when the writer
reports more bytes than `max_byte_count`; the buffer is then left with its cursor
at the start of the reserved region, which has `max_byte_count` bytes of room
after it: the cursor has not been advanced. -/
theorem append_with_writer_fatal (b : byte_buffer) (max_byte_count : Nat) (f : chunk_writer) :
    ((∃ st, byte_buffer.append_with_writer b max_byte_count f = Except.error st) ↔
      max_byte_count < (f (byte_buffer.reserve b max_byte_count).cursor_
        (byte_buffer.reserve b max_byte_count).heap).1) ∧
    ∀ st, byte_buffer.append_with_writer b max_byte_count f = Except.error st →
      st.cursor_ = (byte_buffer.reserve b max_byte_count).cursor_ ∧
      max_byte_count ≤ st.bytes_remaining_in_current_chunk := by
  by_cases h : (f (byte_buffer.reserve b max_byte_count).cursor_
      (byte_buffer.reserve b max_byte_count).heap).1 ≤ max_byte_count
  · simp only [byte_buffer.append_with_writer, h, if_true]
    refine ⟨⟨?_, fun hlt => absurd h (by omega)⟩, ?_⟩
    · rintro ⟨st, hst⟩
      cases hst
    · intro st hst
      cases hst
  · simp only [byte_buffer.append_with_writer, h, if_false]
    refine ⟨⟨fun _ => by omega, fun _ => ⟨_, rfl⟩⟩, ?_⟩
    intro st hst
    injection hst with hst
    subst hst
    exact ⟨rfl, byte_buffer.reserve_room b max_byte_count⟩

/-- C18 on the buffer holding `Hello`: a writer given room for 4 bytes that
reports 7 makes the call fail, with the cursor where the reserved region
starts. -/
theorem append_with_writer_fatal_witness :
    ∃ st, byte_buffer.append_with_writer hello_buffer 4 overreporting_writer = Except.error st ∧
      st.cursor_ = (byte_buffer.reserve hello_buffer 4).cursor_ :=
  ((append_with_writer_fatal hello_buffer 4 overreporting_writer).1.mpr (by decide)).imp
    fun st h => ⟨h, ((append_with_writer_fatal hello_buffer 4 overreporting_writer).2 st h).1⟩

/-- C19: when the current chunk has fewer than `byte_count` bytes remaining,
`append(byte_count)` creates exactly one new last chunk, of allocated size
`max(byte_count, 4096)`, and returns the start of that chunk: a region of
`byte_count` contiguous bytes inside it; a request larger than 4096 gives a
chunk sized to that request. -/
theorem append_new_chunk (b : byte_buffer) (byte_count : Nat)
    (h : b.bytes_remaining_in_current_chunk < byte_count) :
    (byte_buffer.append b byte_count).2.chunks_
      = (byte_buffer.update_current_chunk_size b).chunks_ ++
        [⟨(byte_buffer.append b byte_count).1, max byte_count 4096⟩] ∧
    (byte_buffer.append b byte_count).2.chunks_.length = b.chunks_.length + 1 ∧
    (byte_buffer.append b byte_count).2.heap.sizes = b.heap.sizes ++ [max byte_count 4096] ∧
    (byte_buffer.append b byte_count).1 = Pointer.addr b.heap.sizes.length 0 ∧
    (byte_buffer.append b byte_count).2.cursor_
      = (byte_buffer.append b byte_count).1.add byte_count ∧
    (byte_buffer.append b byte_count).2.current_chunk_end_
      = (byte_buffer.append b byte_count).1.add (max byte_count 4096) ∧
    byte_count ≤ max byte_count 4096 ∧
    (4096 < byte_count → max byte_count 4096 = byte_count) := by
  have hlen : (byte_buffer.update_current_chunk_size b).chunks_.length = b.chunks_.length := by
    unfold byte_buffer.update_current_chunk_size
    cases hl : b.chunks_.getLast? with
    | none => rfl
    | some c =>
      obtain ⟨ys, hys⟩ := List.getLast?_eq_some_iff.mp hl
      simp [hys]
  have hheap : (byte_buffer.update_current_chunk_size b).heap = b.heap := by
    unfold byte_buffer.update_current_chunk_size
    cases b.chunks_.getLast? <;> rfl
  refine ⟨?_, ?_, ?_, ?_, ?_, ?_, le_max_left _ _, fun h2 => max_eq_left (by omega)⟩
  · simp [byte_buffer.append, byte_buffer.reserve, h, byte_buffer.add_new_chunk,
      byte_buffer.make_chunk, byte_buffer.chunk_begin, byte_buffer.default_chunk_size]
  · simp [byte_buffer.append, byte_buffer.reserve, h, byte_buffer.add_new_chunk,
      byte_buffer.make_chunk, hlen]
  · simp [byte_buffer.append, byte_buffer.reserve, h, byte_buffer.add_new_chunk,
      byte_buffer.make_chunk, hheap, byte_buffer.default_chunk_size]
  · simp [byte_buffer.append, byte_buffer.reserve, h, byte_buffer.add_new_chunk,
      byte_buffer.make_chunk, byte_buffer.chunk_begin, hheap]
  · simp [byte_buffer.append, byte_buffer.reserve, h, byte_buffer.add_new_chunk,
      byte_buffer.make_chunk, byte_buffer.chunk_begin]
  · simp [byte_buffer.append, byte_buffer.reserve, h, byte_buffer.add_new_chunk,
      byte_buffer.make_chunk, byte_buffer.chunk_begin, byte_buffer.chunk_end,
      byte_buffer.default_chunk_size]

/-- C19 on the buffer holding `Hello`, whose chunk has 4091 bytes left: a
request for 5000 bytes gives one new chunk of 5000 bytes. -/
theorem append_new_chunk_witness :
    hello_buffer.bytes_remaining_in_current_chunk < 5000 ∧
    (byte_buffer.append hello_buffer 5000).2.chunks_.length = hello_buffer.chunks_.length + 1 ∧
    (byte_buffer.append hello_buffer 5000).2.chunks_.getLast?
      = some ⟨Pointer.addr 1 0, 5000⟩ :=
  ⟨by decide, (append_new_chunk hello_buffer 5000 (by decide)).2.1,
    by rw [(append_new_chunk hello_buffer 5000 (by decide)).1]; decide⟩

end quick_lint_js
/-! ## Instrumentation is pure observability -/

namespace quick_lint_js

theorem instrumented_call_data {V T : Type} (ops : vector_operations V T) (profiling : Bool)
    (s : instrumented_vector V × vector_instrumentation) (c : vector_call T) :
    (instrumented_vector.call ops profiling s c).1.data_ = ops.call s.1.data_ c := by
  cases c <;> rfl

theorem instrumented_calls_data {V T : Type} (ops : vector_operations V T) (profiling : Bool)
    (calls : List (vector_call T)) :
    ∀ s : instrumented_vector V × vector_instrumentation,
      (calls.foldl (instrumented_vector.call ops profiling) s).1.data_
        = calls.foldl ops.call s.1.data_ := by
  induction calls with
  | nil => intro s; rfl
  | cons c cs ih =>
    intro s
    simp only [List.foldl_cons]
    rw [ih, instrumented_call_data]

theorem recording_calls {T : Type} (calls : List (vector_call T)) :
    ∀ trace : List (vector_call T),
      calls.foldl (recording_operations T).call trace = trace ++ calls := by
  induction calls with
  | nil => intro trace; simp
  | cons c cs ih =>
    intro trace
    simp only [List.foldl_cons]
    rw [ih]
    cases c <;> simp [vector_operations.call, recording_operations]

/-- C20: for every sequence of `emplace_back`, `clear` and `reserve` calls, with
profiling enabled or disabled, the vector wrapped by an `instrumented_vector` ends
in the state of the same vector driven directly, so `size()`, `capacity()`,
`empty()` and `data()` agree, and so does the element sequence of a bump-backed
array; and a wrapped vector that records its calls receives exactly the calls of
the sequence, in order. -/
theorem instrumentation_is_observability {V T : Type} (ops : vector_operations V T)
    (profiling : Bool) (calls : List (vector_call T)) (v : instrumented_vector V)
    (log : vector_instrumentation) :
    (calls.foldl (instrumented_vector.call ops profiling) (v, log)).1.data_
      = calls.foldl ops.call v.data_ ∧
    instrumented_vector.size ops (calls.foldl (instrumented_vector.call ops profiling) (v, log)).1
      = ops.size (calls.foldl ops.call v.data_) ∧
    instrumented_vector.capacity ops
        (calls.foldl (instrumented_vector.call ops profiling) (v, log)).1
      = ops.capacity (calls.foldl ops.call v.data_) ∧
    instrumented_vector.empty ops
        (calls.foldl (instrumented_vector.call ops profiling) (v, log)).1
      = ops.empty (calls.foldl ops.call v.data_) ∧
    instrumented_vector.data ops (calls.foldl (instrumented_vector.call ops profiling) (v, log)).1
      = ops.data (calls.foldl ops.call v.data_) ∧
    (∀ [element_layout T] (answer : grow_policy T) (w : instrumented_vector (raw_bump_vector T)),
      (calls.foldl (instrumented_vector.call (raw_bump_vector.operations answer) profiling)
          (w, log)).1.data_.elements
        = (calls.foldl (raw_bump_vector.operations answer).call w.data_).elements) ∧
    (∀ r : instrumented_vector (List (vector_call T)),
      (calls.foldl (instrumented_vector.call (recording_operations T) profiling)
          (r, log)).1.data_ = r.data_ ++ calls) := by
  have h := instrumented_calls_data ops profiling calls (v, log)
  refine ⟨h, ?_, ?_, ?_, ?_, ?_, ?_⟩
  · simp only [instrumented_vector.size, h]
  · simp only [instrumented_vector.capacity, h]
  · simp only [instrumented_vector.empty, h]
  · simp only [instrumented_vector.data, h]
  · intro _ answer w
    rw [instrumented_calls_data]
  · intro r
    rw [instrumented_calls_data, recording_calls]

end quick_lint_js

/-! ## The source locator: one byte at a time -/

namespace quick_lint_js

namespace locator

end locator

end quick_lint_js

/-! ## The bump-backed array: the assertion of `reserve_grow` -/

namespace quick_lint_js

/-- C23: reached through `reserve(n)` or `emplace_back`, the assertion `new_size >
capacity()` of `reserve_grow` never fails, in any state of the vector: both
return what they return when the assertion is not evaluated, while a direct call
with `new_size = capacity()` fails it. The size `emplace_back` asks for exceeds
the capacity also in wrapping 64-bit arithmetic as long as `capacity + 1` does
not overflow, and not when it does. -/
theorem reserve_grow_assertion_holds {T : Type} [element_layout T] (answer : grow_policy T)
    (v : raw_bump_vector T) (n : Nat) (x : T) :
    raw_bump_vector.reserve_asserted answer v n = some (raw_bump_vector.reserve answer v n) ∧
    raw_bump_vector.emplace_back_asserted answer v x
      = some (raw_bump_vector.emplace_back answer v x) ∧
    v.capacity < max (max 4 (v.capacity + 1)) (v.capacity * 2) ∧
    raw_bump_vector.reserve_grow_asserted answer v v.capacity = none ∧
    (∀ c, c + 1 < 2 ^ 64 → c < raw_bump_vector.new_size_size_t c 1) ∧
    ¬ (2 ^ 64 - 1 < raw_bump_vector.new_size_size_t (2 ^ 64 - 1) 1) := by
  refine ⟨?_, ?_, by omega, ?_, ?_, by decide⟩
  · unfold raw_bump_vector.reserve_asserted raw_bump_vector.reserve
      raw_bump_vector.reserve_grow_asserted
    by_cases h : v.capacity < n
    · simp [h]
    · simp [h]
  · unfold raw_bump_vector.emplace_back_asserted raw_bump_vector.emplace_back
      raw_bump_vector.reserve_grow_by_at_least_asserted
      raw_bump_vector.reserve_grow_by_at_least raw_bump_vector.reserve_grow_asserted
    have hgt : max (max raw_bump_vector.minimum_capacity (v.capacity + 1)) (v.capacity * 2)
        > v.capacity := by
      simp only [raw_bump_vector.minimum_capacity]; omega
    by_cases h : v.capacity_end_ = v.data_end_
    · simp only [h, if_true, hgt, Option.map_some']
    · simp only [h, if_false, Option.map_some']
  · simp [raw_bump_vector.reserve_grow_asserted]
  · intro c hc
    unfold raw_bump_vector.new_size_size_t
    rw [Nat.mod_eq_of_lt hc]
    omega

end quick_lint_js

/-! ## The bump-backed array: what is given back to the allocator -/

namespace quick_lint_js

namespace raw_bump_vector

/-- What `clear()` tells the allocator: one `deallocate` call, with the data
pointer and `size() * sizeof(T)` bytes. -/
theorem clear_calls {T : Type} [element_layout T] (v : raw_bump_vector T)
    (h : v.data_ ≠ Pointer.null) :
    (clear v).allocator_.calls = v.allocator_.calls ++
      [allocator_call.deallocate v.data_ (v.size * element_layout.sizeof T)
        (element_layout.alignof T)] := by
  simp [clear, h, destroy, bump_allocator.deallocate, size]

end raw_bump_vector

/-- C22, evaluated on the vector of `int` holding 10, 20, 30 in a storage of
capacity 4: `clear()` calls `deallocate` once with the data pointer and 12 bytes,
`size() * sizeof(T)`, while the range held is `capacity() * sizeof(T)`, 16
bytes; `reserve_grow(9)`, when in-place growth fails, does the same. -/
theorem clear_deallocates_size_bytes :
    three_ints.size = 3 ∧ three_ints.capacity = 4 ∧ three_ints.data = Pointer.addr 0 0 ∧
    element_layout.sizeof Int = 4 ∧
    (raw_bump_vector.clear three_ints).allocator_.calls
      = three_ints.allocator_.calls ++ [allocator_call.deallocate (Pointer.addr 0 0) 12 4] ∧
    (raw_bump_vector.reserve_grow (never_policy Int) three_ints 9).allocator_.calls
      = three_ints.allocator_.calls ++
        [allocator_call.try_grow_array_in_place (Pointer.addr 0 0) 4 9 false,
         allocator_call.allocate_uninitialized_array 9 (Pointer.addr 1 0),
         allocator_call.deallocate (Pointer.addr 0 0) 12 4] ∧
    three_ints.capacity * element_layout.sizeof Int = 16 := by
  decide

end quick_lint_js

/-! ## The instrumentation log -/

namespace quick_lint_js

theorem instrumented_call_extends_log {V T : Type} (ops : vector_operations V T)
    (profiling : Bool) (s : instrumented_vector V × vector_instrumentation)
    (c : vector_call T) :
    List.IsPrefix s.2.entries_ (instrumented_vector.call ops profiling s c).2.entries_ := by
  cases c <;> cases profiling <;>
    simp [instrumented_vector.call, instrumented_vector.emplace_back,
      instrumented_vector.clear, instrumented_vector.reserve,
      instrumented_vector.add_instrumentation_entry, vector_instrumentation.add_entry]

theorem instrumented_calls_extend_log {V T : Type} (ops : vector_operations V T)
    (profiling : Bool) (calls : List (vector_call T)) :
    ∀ s : instrumented_vector V × vector_instrumentation,
      List.IsPrefix s.2.entries_
        (calls.foldl (instrumented_vector.call ops profiling) s).2.entries_ := by
  induction calls with
  | nil => intro s; exact List.prefix_refl _
  | cons c cs ih =>
    intro s
    simp only [List.foldl_cons]
    exact (instrumented_call_extends_log ops profiling s c).trans (ih _)

/-- C21, as amended: with profiling enabled the log is append-only and each
operation appends exactly these entries, leaving the earlier ones unchanged:
construction from an allocator or from a range one `create` entry; move
construction a `create` entry for the new vector followed by a `clear` entry for
the moved-from source; `emplace_back` one `append` entry; `clear()` one `clear`
entry; destruction one `destroy` entry; move-assignment an `assign` entry for the
destination followed by a `clear` entry for the moved-from source; `reserve`
none. Every entry records the address and owner label of its vector and its
`data()`, `size()` and `capacity()` as they are after the operation. -/
theorem instrumentation_log_entries {V T A : Type} (ops : vector_operations V T)
    (life : vector_lifecycle V T A) (this_ : Nat) (debug_owner : String) (allocator : A)
    (range : List T) (v other : instrumented_vector V) (log : vector_instrumentation) (x : T)
    (n : Nat) (calls : List (vector_call T)) :
    (instrumented_vector.construct ops life true this_ debug_owner allocator log).2.entries_
      = log.entries_ ++ [instrumented_vector.entry_for ops
          (instrumented_vector.construct ops life true this_ debug_owner allocator log).1
          vector_instrumentation.event.create] ∧
    (instrumented_vector.construct_range ops life true this_ debug_owner allocator range
        log).2.entries_
      = log.entries_ ++ [instrumented_vector.entry_for ops
          (instrumented_vector.construct_range ops life true this_ debug_owner allocator range
            log).1 vector_instrumentation.event.create] ∧
    (instrumented_vector.move_construct ops life true this_ debug_owner other log).2.entries_
      = log.entries_ ++
        [instrumented_vector.entry_for ops
          (instrumented_vector.move_construct ops life true this_ debug_owner other log).1.1
          vector_instrumentation.event.create,
         instrumented_vector.entry_for ops
          (instrumented_vector.move_construct ops life true this_ debug_owner other log).1.2
          vector_instrumentation.event.clear] ∧
    (instrumented_vector.emplace_back ops true (v, log) x).2.entries_
      = log.entries_ ++ [instrumented_vector.entry_for ops
          (instrumented_vector.emplace_back ops true (v, log) x).1
          vector_instrumentation.event.append] ∧
    (instrumented_vector.clear ops true (v, log)).2.entries_
      = log.entries_ ++ [instrumented_vector.entry_for ops
          (instrumented_vector.clear ops true (v, log)).1
          vector_instrumentation.event.clear] ∧
    (instrumented_vector.destruct ops true v log).entries_
      = log.entries_ ++ [instrumented_vector.entry_for ops v
          vector_instrumentation.event.destroy] ∧
    (instrumented_vector.move_assign ops life true v other log).2.entries_
      = log.entries_ ++
        [instrumented_vector.entry_for ops
          (instrumented_vector.move_assign ops life true v other log).1.1
          vector_instrumentation.event.assign,
         instrumented_vector.entry_for ops
          (instrumented_vector.move_assign ops life true v other log).1.2
          vector_instrumentation.event.clear] ∧
    (instrumented_vector.reserve ops true (v, log) n).2.entries_ = log.entries_ ∧
    (instrumented_vector.move_construct ops life true this_ debug_owner other log).1.1.debug_owner_
      = debug_owner ∧
    (instrumented_vector.move_construct ops life true this_ debug_owner other log).1.2.debug_owner_
      = other.debug_owner_ ∧
    (instrumented_vector.move_assign ops life true v other log).1.1.debug_owner_
      = v.debug_owner_ ∧
    List.IsPrefix log.entries_
      (calls.foldl (instrumented_vector.call ops true) (v, log)).2.entries_ := by
  refine ⟨?_, ?_, ?_, ?_, ?_, ?_, ?_, rfl, rfl, rfl, rfl,
    instrumented_calls_extend_log ops true calls (v, log)⟩ <;>
    simp [instrumented_vector.construct, instrumented_vector.construct_range,
      instrumented_vector.move_construct, instrumented_vector.emplace_back,
      instrumented_vector.clear, instrumented_vector.destruct, instrumented_vector.move_assign,
      instrumented_vector.add_instrumentation_entry, vector_instrumentation.add_entry,
      instrumented_vector.entry_for]

/-- C21 as stated fails for move construction: moving the vector of `tokens`
into a new vector of `nodes` appends two entries to the log, a `create` entry for
`nodes` and a `clear` entry for `tokens`, not one `create` entry. -/
theorem move_construct_appends_two_entries :
    (instrumented_vector.move_construct sample_vector_operations sample_vector_lifecycle true 2
        "nodes" sample_instrumented_vector sample_log).2.entries_
      = sample_log.entries_ ++
        [{ object_id := 2, owner := "nodes", event := vector_instrumentation.event.create,
           data_pointer := Pointer.addr 0 0, size := 2, capacity := 2 },
         { object_id := 1, owner := "tokens", event := vector_instrumentation.event.clear,
           data_pointer := Pointer.null, size := 0, capacity := 0 }] ∧
    ¬ ∃ e : vector_instrumentation.entry,
      (instrumented_vector.move_construct sample_vector_operations sample_vector_lifecycle true
          2 "nodes" sample_instrumented_vector sample_log).2.entries_
        = sample_log.entries_ ++ [e] := by
  refine ⟨by decide, ?_⟩
  rintro ⟨e, he⟩
  have hlen := congrArg List.length he
  rw [List.length_append, List.length_singleton] at hlen
  have h3 : (instrumented_vector.move_construct sample_vector_operations
      sample_vector_lifecycle true 2 "nodes" sample_instrumented_vector
      sample_log).2.entries_.length = 3 := by decide
  have h1 : sample_log.entries_.length = 1 := by decide
  omega

end quick_lint_js
